import Mathlib

/-!
MultiTx: aggregation of several transmitters behind one logical transmitter

A shallow embedding of `src/svxlink/trx/MultiTx.cpp`.

* A backend (`Tx *`) is identified by its address, a natural number; `0` is the
  null pointer.
* `long` values are only stored and compared, never added, so they are integers.
* `std::string` is a list of characters.
* Calls made on backends, calls made on the factory and signals emitted by the
  aggregate are collected, in program order, in a list of `Effect`s returned
  next to the new controller state.  Backends are passive: a call made on a
  backend does not call back into the aggregate before it returns.
* The header `MultiTx.h` is not part of the sources at hand; the members
  `maxlatencyTx` (a `Tx *`) and `tx_latencystore` (a map from `Tx *` to `long`)
  are typed by the way `MultiTx.cpp` uses them.
-/

namespace SvxLink

/-- Address of a transmitter backend (`Tx *`), `0` being the null pointer. -/
abbrev Tx := Nat

/-- Modelled from the spec: the enumeration `Tx::TxCtrlMode` of the absent header `Tx.h`,
"control mode (enumerated: disabled / automatic / forced-on)". -/
inductive TxCtrlMode where
  | TX_OFF
  | TX_AUTO
  | TX_ON
  deriving DecidableEq, Repr

/-- A C `float`, identified by its bit pattern; the aggregate only passes it on. -/
structure CFloat where
  bits : Nat
  deriving DecidableEq, Repr

/-- What the aggregate does to the outside world, in program order. -/
inductive Effect where
  /-- The call `TxFactory::createNamedTx(cfg, tx_name)`, which returned `res`. -/
  | createNamedTx (tx_name : List Char) (res : Tx)
  /-- The call `tx->initialize()`, which returned `ok`. -/
  | txInitialise (tx : Tx) (ok : Bool)
  /-- The three signals of `tx` were connected to the aggregate. -/
  | connectSignals (tx : Tx)
  /-- The call `splitter->addSink(tx)`. -/
  | addSink (tx : Tx)
  /-- The call `tx->setTxCtrlMode(mode)`. -/
  | txSetTxCtrlMode (tx : Tx) (mode : TxCtrlMode)
  /-- The call `tx->enableCtcss(enable)`. -/
  | txEnableCtcss (tx : Tx) (enable : Bool)
  /-- The call `tx->sendDtmf(digits)`. -/
  | txSendDtmf (tx : Tx) (digits : List Char)
  /-- The call `tx->setTransmittedSignalStrength(siglev)`. -/
  | txSetTransmittedSignalStrength (tx : Tx) (siglev : CFloat)
  /-- The call `tx->setSystemLatency(system_latency)`. -/
  | txSetSystemLatency (tx : Tx) (system_latency : Int)
  /-- The aggregate emitted its own signal `transmitterStateChange(is_transmitting)`. -/
  | transmitterStateChange (is_transmitting : Bool)
  /-- The statement `delete tx`. -/
  | deleteTx (tx : Tx)
  deriving DecidableEq, Repr

/-- The map `tx_latencystore`: `none` where the key has no entry. -/
abbrev LatencyStore := Tx → Option Int

/-- The assignment `tx_latencystore[tx] = latency`. -/
def storeSet (store : LatencyStore) (tx : Tx) (latency : Int) : LatencyStore :=
  fun k => if k = tx then some latency else store k

/-- The value of the expression `tx_latencystore[tx]` (`0` for a key without entry). -/
def storeGet (store : LatencyStore) (tx : Tx) : Int :=
  (store tx).getD 0

/-- The data members of `MultiTx` that the control paths read or write. -/
structure MultiTx where
  /-- The owned backends `txs`, in insertion order. -/
  txs : List Tx
  system_latency : Int
  next_latency : Int
  maxlatencyTx : Tx
  tx_latencystore : LatencyStore

namespace MultiTx

/-- The constructor `MultiTx::MultiTx`: `system_latency(0), next_latency(0)`, no backend, an
empty map; `maxlatencyTx` is not initialised, its indeterminate value is `garbage`. -/
def new (garbage : Tx) : MultiTx :=
  { txs := [], system_latency := 0, next_latency := 0, maxlatencyTx := garbage,
    tx_latencystore := fun _ => none }

/-- The destructor `MultiTx::~MultiTx`: every backend of `txs` is deleted, then `txs` is
cleared. -/
def destructor (m : MultiTx) : MultiTx × List Effect :=
  ({ m with txs := [] }, m.txs.foldl (fun done it => done ++ [Effect.deleteTx it]) [])

/-- The loop `for (it=txs.begin(); it!=txs.end(); ++it) { (*it)->call; }`: the backends are
visited from the front of the list and each call is appended to the calls made so far. -/
def forEachTx (txs : List Tx) (call : Tx → Effect) : List Effect :=
  txs.foldl (fun done it => done ++ [call it]) []

/-- The method `MultiTx::setTxCtrlMode`. -/
def setTxCtrlMode (m : MultiTx) (mode : TxCtrlMode) : List Effect :=
  forEachTx m.txs (fun it => Effect.txSetTxCtrlMode it mode)

/-- The method `MultiTx::isTransmitting`; `flags it` is what `(*it)->isTransmitting()` returns
at the time of the call. -/
def isTransmitting (m : MultiTx) (flags : Tx → Bool) : Bool :=
  m.txs.foldl (fun is_transmitting it => is_transmitting || flags it) false

/-- The method `MultiTx::enableCtcss`. -/
def enableCtcss (m : MultiTx) (enable : Bool) : List Effect :=
  forEachTx m.txs (fun it => Effect.txEnableCtcss it enable)

/-- The method `MultiTx::sendDtmf`. -/
def sendDtmf (m : MultiTx) (digits : List Char) : List Effect :=
  forEachTx m.txs (fun it => Effect.txSendDtmf it digits)

/-- The method `MultiTx::setTransmittedSignalStrength`. -/
def setTransmittedSignalStrength (m : MultiTx) (siglev : CFloat) : List Effect :=
  forEachTx m.txs (fun it => Effect.txSetTransmittedSignalStrength it siglev)

/-- The method `MultiTx::setSystemLatency`: its parameter hides the member of the same name,
no member is written. -/
def setSystemLatency (m : MultiTx) (system_latency : Int) : List Effect :=
  forEachTx m.txs (fun it => Effect.txSetSystemLatency it system_latency)

/-- The method `MultiTx::onTransmitterStateChange`. -/
def onTransmitterStateChange (m : MultiTx) (flags : Tx → Bool) (is_transmitting : Bool) :
    MultiTx × List Effect :=
  let signalled :=
    if is_transmitting = m.isTransmitting flags then
      [Effect.transmitterStateChange is_transmitting]
    else []
  let pushed := m.setSystemLatency m.next_latency
  ({ m with system_latency := m.next_latency }, signalled ++ pushed)

/-- The loop of `MultiTx::onLatencyChanged` over `txs`: each round compares
`tx_latencystore[tx]`, the entry of the reporting backend, with `next_latency`. -/
def stageLoop (store : LatencyStore) (tx : Tx) (txs : List Tx) (next_latency : Int) : Int :=
  txs.foldl (fun next _it => if storeGet store tx > next then storeGet store tx else next)
    next_latency

/-- The method `MultiTx::onLatencyChanged`. -/
def onLatencyChanged (m : MultiTx) (latency : Int) (tx : Tx) : MultiTx × List Effect :=
  let raised : MultiTx × List Effect :=
    if latency > m.system_latency then
      ({ m with system_latency := latency, maxlatencyTx := tx }, m.setSystemLatency latency)
    else (m, [])
  let m1 := raised.1
  let m2 := { m1 with tx_latencystore := storeSet m1.tx_latencystore tx latency }
  if tx = m2.maxlatencyTx ∧ latency < m2.system_latency then
    ({ m2 with next_latency := stageLoop m2.tx_latencystore tx m2.txs m2.next_latency },
      raised.2)
  else (m2, raised.2)

end MultiTx

/-- One event delivered to the aggregate by a backend. -/
inductive Event where
  /-- A backend `tx` emitted `latencyChanged(latency, tx)`. -/
  | latencyChanged (latency : Int) (tx : Tx)
  /-- A backend emitted `transmitterStateChange(is_transmitting)`; `flags` are the transmit
  flags of all backends at that moment. -/
  | transmitterStateChange (is_transmitting : Bool) (flags : Tx → Bool)

/-- Whether the event is a transmit-state change. -/
def Event.isStateChange : Event → Bool
  | Event.latencyChanged _ _ => false
  | Event.transmitterStateChange _ _ => true

/-- Delivery of one event to the slot it is connected to. -/
def step (m : MultiTx) : Event → MultiTx × List Effect
  | Event.latencyChanged latency tx => m.onLatencyChanged latency tx
  | Event.transmitterStateChange is_transmitting flags =>
      m.onTransmitterStateChange flags is_transmitting

/-- Delivery of a sequence of events, one after the other; the effects are concatenated. -/
def run (m : MultiTx) : List Event → MultiTx × List Effect
  | [] => (m, [])
  | e :: es =>
      let r := step m e
      let rest := run r.1 es
      (rest.1, r.2 ++ rest.2)

/-- The aggregate events among the effects, i.e. the payloads of the emitted
`transmitterStateChange` signals. -/
def emitted : List Effect → List Bool
  | [] => []
  | Effect.transmitterStateChange b :: es => b :: emitted es
  | _ :: es => emitted es

/-- The `setSystemLatency` calls among the effects: which backend received which value. -/
def latencyPushes : List Effect → List (Tx × Int)
  | [] => []
  | Effect.txSetSystemLatency tx l :: es => (tx, l) :: latencyPushes es
  | _ :: es => latencyPushes es

/-- The latencies recorded in the map for the owned backends, in insertion order. -/
def recordedLatencies (m : MultiTx) : List Int :=
  m.txs.filterMap m.tx_latencystore

/-- The maximum of the latencies recorded for the owned backends, as the specification words the
staged value; `none` when nothing is recorded. -/
def recordedMax (m : MultiTx) : Option Int :=
  (recordedLatencies m).foldl
    (fun acc l => match acc with
      | none => some l
      | some a => some (max a l)) none

/-- Three owned backends `A = 1`, `B = 2`, `C = 3` right after construction. -/
def threeBackends (garbage : Tx) : MultiTx :=
  { MultiTx.new garbage with txs := [1, 2, 3] }

/-- The state after the reports `10` from `A`, `30` from `B` and `20` from `C`, in that order,
with `threeBackends` as the start. -/
def afterThreeReports (garbage : Tx) : MultiTx :=
  (run (threeBackends garbage)
    [Event.latencyChanged 10 1, Event.latencyChanged 30 2, Event.latencyChanged 20 3]).1

/-- Two owned backends `A = 1` and `B = 2` right after construction. -/
def twoBackends (garbage : Tx) : MultiTx :=
  { MultiTx.new garbage with txs := [1, 2] }

/-- Transmit flags when only `A = 1` is transmitting. -/
def flagsA : Tx → Bool := fun tx => tx == 1

/-- Transmit flags when `A = 1` and `B = 2` are both transmitting. -/
def flagsAB : Tx → Bool := fun tx => tx == 1 || tx == 2

/-! ### Initialisation -/

/-- The two configuration variables that `MultiTx::initialize` reads with `cfg.getValue`:
`none` when `getValue` returns `false` (variable not set), the value otherwise. -/
structure Config where
  transmitters : Option (List Char)
  simulcast : Option (List Char)

/-- The collaborators of `MultiTx::initialize` outside `MultiTx.cpp`.
`createNamedTx n tx_name` is the pointer that `TxFactory::createNamedTx(cfg, tx_name)` returns
when the aggregate already owns `n` backends (`0` when the name cannot be resolved), so that the
same name asked for twice may give two backends; `txInitialise tx` is what `tx->initialize()`
returns. -/
structure TxWorld where
  createNamedTx : Nat → List Char → Tx
  txInitialise : Tx → Bool

/-- The call `find(start, transmitters.end(), ',')` followed by `string tx_name(start, comma)`:
the first component is `tx_name`, the second is `none` when `comma == transmitters.end()` and
otherwise the text after the comma, where the next round starts. -/
def findComma : List Char → List Char × Option (List Char)
  | [] => ([], none)
  | c :: rest =>
      if c = ',' then ([], some rest)
      else ((c :: (findComma rest).1), (findComma rest).2)

/-- The block guarded by `if (!tx_name.empty())` in the loop of `MultiTx::initialize`.  The first
component is `false` when the block leaves `initialize` with `return false`. -/
def addNamedTx (w : TxWorld) (m : MultiTx) (tx_name : List Char) :
    Bool × MultiTx × List Effect :=
  let tx := w.createNamedTx m.txs.length tx_name
  if tx = 0 then
    (false, m, [Effect.createNamedTx tx_name tx])
  else if w.txInitialise tx = false then
    (false, m, [Effect.createNamedTx tx_name tx, Effect.txInitialise tx false])
  else
    (true, { m with txs := m.txs ++ [tx] },
      [Effect.createNamedTx tx_name tx, Effect.txInitialise tx true,
       Effect.connectSignals tx, Effect.addSink tx])

/-- The loop `for (;;)` of `MultiTx::initialize`, with `fuel` bounding the number of rounds;
`none` when the rounds are used up.  The first component of the result is `false` when the loop
was left with `return false` and `true` when it was left with `break`. -/
def initLoop (w : TxWorld) :
    Nat → List Char → MultiTx → List Effect → Option (Bool × MultiTx × List Effect)
  | 0, _, _, _ => none
  | fuel + 1, start, m, done =>
      let found := findComma start
      let added := if found.1 ≠ [] then addNamedTx w m found.1 else (true, m, [])
      if added.1 = false then
        some (false, added.2.1, done ++ added.2.2)
      else
        match found.2 with
        | none => some (true, added.2.1, done ++ added.2.2)
        | some next => initLoop w fuel next added.2.1 (done ++ added.2.2)

/-- The method `MultiTx::initialize` (a reserved word here, hence the spelling): the value
returned, the controller afterwards and the calls made.  The audio splitter that is created and installed as handler carries no state of the
control paths and is left out.  One round more than the length of the text is enough for the
loop, since every round but the last consumes a comma. -/
def initialise (cfg : Config) (w : TxWorld) (m : MultiTx) :
    Option (Bool × MultiTx × List Effect) :=
  match cfg.transmitters with
  | none => some (false, m, [])
  | some transmitters =>
      match initLoop w (transmitters.length + 1) transmitters m [] with
      | none => none
      | some (false, m1, done) => some (false, m1, done)
      | some (true, m1, done) =>
          match cfg.simulcast with
          | some _ =>
              let m2 := { m1 with system_latency := 10 }
              some (true, m2, done ++ m2.setSystemLatency m2.system_latency)
          | none => some (true, m1, done)

/-- The names handed to the factory, in the order of the calls. -/
def resolvedNames : List Effect → List (List Char)
  | [] => []
  | Effect.createNamedTx tx_name _ :: es => tx_name :: resolvedNames es
  | _ :: es => resolvedNames es

/-- The non-empty maximal comma-free pieces of a text, from left to right, as the specification
words the list of backend names. -/
def commaTokens (s : List Char) : List (List Char) :=
  (s.splitOn ',').filter (fun t => !t.isEmpty)

/-- Whether the name `tx_name`, asked for when `n` backends are owned, resolves to a backend
whose own `initialize` succeeds. -/
def usable (w : TxWorld) (n : Nat) (tx_name : List Char) : Bool :=
  w.createNamedTx n tx_name != 0 && w.txInitialise (w.createNamedTx n tx_name)

/-- Whether every name of the list is usable, the first being asked for when `n` backends are
owned and each further one when one more is. -/
def allUsable (w : TxWorld) : Nat → List (List Char) → Bool
  | _, [] => true
  | n, tx_name :: rest => usable w n tx_name && allUsable w (n + 1) rest

/-- The names of the list up to and including the first one that is not usable. -/
def upToFirstFailure (w : TxWorld) : Nat → List (List Char) → List (List Char)
  | _, [] => []
  | n, tx_name :: rest =>
      if usable w n tx_name then tx_name :: upToFirstFailure w (n + 1) rest else [tx_name]

/-- The backends the factory returns for the names of the list, in order. -/
def backendsOf (w : TxWorld) : Nat → List (List Char) → List Tx
  | _, [] => []
  | n, tx_name :: rest => w.createNamedTx n tx_name :: backendsOf w (n + 1) rest

/-- The loop of `MultiTx::initialize` run over a list of names that are already cut out: each
name goes through `addNamedTx`, and the first failure ends the loop. -/
def loopOverNames (w : TxWorld) : List (List Char) → MultiTx → Bool × MultiTx × List Effect
  | [], m => (true, m, [])
  | tx_name :: rest, m =>
      let added := addNamedTx w m tx_name
      if added.1 = false then (false, added.2.1, added.2.2)
      else
        let r := loopOverNames w rest added.2.1
        (r.1, r.2.1, added.2.2 ++ r.2.2)

/-- A factory that knows the names `a`, `b` and `c`, and backends that all initialise. -/
def worldABC : TxWorld :=
  { createNamedTx := fun n tx_name =>
      if tx_name = ['a'] ∨ tx_name = ['b'] ∨ tx_name = ['c'] then n + 1 else 0
    txInitialise := fun _ => true }

/-- A factory that only knows the name `b`. -/
def worldOnlyB : TxWorld :=
  { createNamedTx := fun n tx_name => if tx_name = ['b'] then n + 1 else 0
    txInitialise := fun _ => true }


/-- The backends on which `initialize()` was called, in the order of the calls. -/
def initialisedTxs : List Effect → List Tx
  | [] => []
  | Effect.txInitialise tx _ :: es => tx :: initialisedTxs es
  | _ :: es => initialisedTxs es

/-- The backends that the factory constructed: the non-null pointers it returned, in the order
of the calls. -/
def constructed : List Effect → List Tx
  | [] => []
  | Effect.createNamedTx _ res :: es =>
      if res = 0 then constructed es else res :: constructed es
  | _ :: es => constructed es

/-- The backends that were released with `delete`, in the order of the statements. -/
def released : List Effect → List Tx
  | [] => []
  | Effect.deleteTx tx :: es => tx :: released es
  | _ :: es => released es

/-- The values that the backend `tx` received through `setSystemLatency`, oldest first. -/
def receivedBy (tx : Tx) : List Effect → List Int
  | [] => []
  | Effect.txSetSystemLatency it l :: es =>
      if it = tx then l :: receivedBy tx es else receivedBy tx es
  | _ :: es => receivedBy tx es

/-- A factory that constructs a backend for every name; only the first backend initialises. -/
def worldSecondFails : TxWorld :=
  { createNamedTx := fun n _ => n + 1
    txInitialise := fun tx => tx == 1 }

/-- One thing that happens to the aggregate: an event of a backend, or a call of the public
method `MultiTx::setSystemLatency` by the owner of the aggregate. -/
inductive Call where
  | event (e : Event)
  | setSystemLatency (system_latency : Int)

/-- The controller and the effects after one `Call`. -/
def stepCall (m : MultiTx) : Call → MultiTx × List Effect
  | Call.event e => step m e
  | Call.setSystemLatency system_latency => (m, m.setSystemLatency system_latency)

/-- The controller and the effects after a sequence of `Call`s. -/
def runCalls (m : MultiTx) : List Call → MultiTx × List Effect
  | [] => (m, [])
  | c :: cs =>
      let r := stepCall m c
      let rest := runCalls r.1 cs
      (rest.1, r.2 ++ rest.2)

/-- One owned backend `A = 1` right after construction. -/
def oneBackend (garbage : Tx) : MultiTx :=
  { MultiTx.new garbage with txs := [1] }

/-- The configuration `TRANSMITTERS=a,b` with `SIMULCAST` set to the empty text. -/
def cfgSimulcastAB : Config :=
  { transmitters := some "a,b".toList, simulcast := some [] }

/-- The controller after `initialize` with `cfgSimulcastAB` and the factory `worldABC`. -/
def simulcastAB : MultiTx :=
  { MultiTx.new 0 with txs := [1, 2], system_latency := 10 }

/-- The calls made by `initialize` with `cfgSimulcastAB` and the factory `worldABC`. -/
def simulcastABEffects : List Effect :=
  [Effect.createNamedTx "a".toList 1, Effect.txInitialise 1 true,
   Effect.connectSignals 1, Effect.addSink 1,
   Effect.createNamedTx "b".toList 2, Effect.txInitialise 2 true,
   Effect.connectSignals 2, Effect.addSink 2,
   Effect.txSetSystemLatency 1 10, Effect.txSetSystemLatency 2 10]

/-- The reports `30` and then `5` from `B = 2`, followed by a transmit-state change. -/
def raiseLowerCommit : List Event :=
  [Event.latencyChanged 30 2, Event.latencyChanged 5 2,
   Event.transmitterStateChange true flagsA]

/-! ### The DTMF decoder of `src/svxlink/rx/S54sDtmfDecoder.h` -/

namespace S54sDtmfDecoder

/-- The enumeration `S54sDtmfDecoder::State`. -/
inductive State where
  | STATE_IDLE
  | STATE_ACTIVE
  | STATE_HANG
  deriving DecidableEq, Repr

end S54sDtmfDecoder

/-- The data members of `S54sDtmfDecoder` apart from the serial port. -/
structure S54sDtmfDecoder where
  last_detected_digit : Char
  state : S54sDtmfDecoder.State
  hangtime : Int

/-- The method `S54sDtmfDecoder::activeDigit`, a `const` method:
`return (state != STATE_IDLE) ? last_detected_digit : '?';`. -/
def S54sDtmfDecoder.activeDigit (d : S54sDtmfDecoder) : Char :=
  if d.state ≠ S54sDtmfDecoder.State.STATE_IDLE then d.last_detected_digit else '?'

/-! ## Auxiliary facts about the loops -/

theorem forEachTx_acc (call : Tx → Effect) (txs : List Tx) (done : List Effect) :
    txs.foldl (fun done it => done ++ [call it]) done = done ++ txs.map call := by
  induction txs generalizing done with
  | nil => simp
  | cons it rest ih => simp [ih]

theorem forEachTx_eq_map (txs : List Tx) (call : Tx → Effect) :
    MultiTx.forEachTx txs call = txs.map call := by
  simp [MultiTx.forEachTx, forEachTx_acc]

theorem or_loop_acc (flags : Tx → Bool) (txs : List Tx) (acc : Bool) :
    txs.foldl (fun is_transmitting it => is_transmitting || flags it) acc
      = (acc || txs.any flags) := by
  induction txs generalizing acc with
  | nil => simp
  | cons it rest ih => simp [ih, Bool.or_assoc]

theorem isTransmitting_eq_any (m : MultiTx) (flags : Tx → Bool) :
    m.isTransmitting flags = m.txs.any flags := by
  simp [MultiTx.isTransmitting, or_loop_acc]

theorem stageLoop_nil (store : LatencyStore) (tx : Tx) (next : Int) :
    MultiTx.stageLoop store tx [] next = next := rfl

theorem stageLoop_eq (store : LatencyStore) (tx : Tx) (txs : List Tx) (next : Int) :
    MultiTx.stageLoop store tx txs next =
      if txs = [] then next else max next (storeGet store tx) := by
  unfold MultiTx.stageLoop
  induction txs generalizing next with
  | nil => rfl
  | cons it rest ih =>
      rw [List.foldl_cons, ih]
      by_cases hr : rest = []
      · simp only [hr, if_true, List.cons_ne_nil, if_false]
        split <;> omega
      · simp only [hr, if_false, List.cons_ne_nil]
        split <;> omega

theorem stageLoop_cons (store : LatencyStore) (tx it : Tx) (rest : List Tx) (next : Int) :
    MultiTx.stageLoop store tx (it :: rest) next = max next (storeGet store tx) := by
  rw [stageLoop_eq]
  simp

theorem emitted_append (xs ys : List Effect) : emitted (xs ++ ys) = emitted xs ++ emitted ys := by
  induction xs with
  | nil => rfl
  | cons e rest ih => cases e <;> simp [emitted, ih]

theorem latencyPushes_append (xs ys : List Effect) :
    latencyPushes (xs ++ ys) = latencyPushes xs ++ latencyPushes ys := by
  induction xs with
  | nil => rfl
  | cons e rest ih => cases e <;> simp [latencyPushes, ih]

theorem emitted_setSystemLatency (m : MultiTx) (l : Int) : emitted (m.setSystemLatency l) = [] := by
  rw [MultiTx.setSystemLatency, forEachTx_eq_map]
  induction m.txs with
  | nil => rfl
  | cons it rest ih => simpa [emitted] using ih

theorem emitted_onTransmitterStateChange (m : MultiTx) (flags : Tx → Bool) (b : Bool) :
    emitted (m.onTransmitterStateChange flags b).2
      = if b = m.txs.any flags then [b] else [] := by
  simp only [MultiTx.onTransmitterStateChange, emitted_append, emitted_setSystemLatency,
    isTransmitting_eq_any, List.append_nil]
  split <;> rfl

theorem latencyPushes_setSystemLatency (m : MultiTx) (l : Int) :
    latencyPushes (m.setSystemLatency l) = m.txs.map (fun it => (it, l)) := by
  rw [MultiTx.setSystemLatency, forEachTx_eq_map]
  induction m.txs with
  | nil => rfl
  | cons it rest ih => simpa [latencyPushes] using ih

theorem onLatencyChanged_of_gt (m : MultiTx) (latency : Int) (tx : Tx)
    (h : latency > m.system_latency) :
    m.onLatencyChanged latency tx =
      ({ m with system_latency := latency, maxlatencyTx := tx,
                tx_latencystore := storeSet m.tx_latencystore tx latency },
        m.setSystemLatency latency) := by
  simp [MultiTx.onLatencyChanged, h]

theorem onLatencyChanged_of_le (m : MultiTx) (latency : Int) (tx : Tx)
    (h : ¬ latency > m.system_latency) :
    m.onLatencyChanged latency tx =
      (if tx = m.maxlatencyTx ∧ latency < m.system_latency then
        { m with tx_latencystore := storeSet m.tx_latencystore tx latency,
                 next_latency := MultiTx.stageLoop (storeSet m.tx_latencystore tx latency) tx
                   m.txs m.next_latency }
       else { m with tx_latencystore := storeSet m.tx_latencystore tx latency }, []) := by
  simp only [MultiTx.onLatencyChanged, h, if_false]
  split <;> rfl

theorem onLatencyChanged_system_latency (m : MultiTx) (latency : Int) (tx : Tx) :
    (m.onLatencyChanged latency tx).1.system_latency = max m.system_latency latency := by
  by_cases h : latency > m.system_latency
  · rw [onLatencyChanged_of_gt m latency tx h]
    simp only
    omega
  · rw [onLatencyChanged_of_le m latency tx h]
    simp only
    split <;> simp only <;> omega


/-! ## Auxiliary facts about the initialisation loop -/

theorem findComma_next_length (s : List Char) :
    ∀ next, (findComma s).2 = some next → next.length < s.length := by
  induction s with
  | nil => intro next h; simp [findComma] at h
  | cons c rest ih =>
      intro next h
      by_cases hc : c = ','
      · simp [findComma, hc] at h
        subst h
        simp
      · simp only [findComma, hc, if_false] at h
        have := ih next h
        simp only [List.length_cons]
        omega

theorem findComma_name_no_comma (s : List Char) : ',' ∉ (findComma s).1 := by
  induction s with
  | nil => simp [findComma]
  | cons c rest ih =>
      by_cases hc : c = ','
      · simp [findComma, hc]
      · simp only [findComma, hc, if_false, List.mem_cons, not_or]
        exact ⟨fun h => hc h.symm, ih⟩

theorem splitOn_findComma (s : List Char) :
    s.splitOn ',' = (findComma s).1 ::
      (match (findComma s).2 with
        | none => []
        | some next => next.splitOn ',') := by
  induction s with
  | nil => rfl
  | cons c rest ih =>
      unfold List.splitOn at ih ⊢
      rw [List.splitOnP_cons]
      by_cases hc : c = ','
      · simp [findComma, hc]
      · have hb : (c == ',') = false := by simpa using hc
        simp only [hb, findComma, hc, if_false, Bool.false_eq_true]
        rw [ih]
        rfl

theorem commaTokens_unfold (s : List Char) :
    commaTokens s =
      (if (findComma s).1 ≠ [] then [(findComma s).1] else []) ++
      (match (findComma s).2 with
        | none => []
        | some next => commaTokens next) := by
  unfold commaTokens
  rw [splitOn_findComma s]
  cases hn : (findComma s).1 with
  | nil => cases (findComma s).2 <;> simp [List.filter]
  | cons a t => cases (findComma s).2 <;> simp [List.filter]

theorem commaTokens_mem_aux (k : Nat) :
    ∀ s : List Char, s.length < k → ∀ n ∈ commaTokens s, n ≠ [] ∧ ',' ∉ n := by
  induction k with
  | zero => intro s hs; omega
  | succ k ih =>
      intro s hs n hn
      rw [commaTokens_unfold] at hn
      rcases List.mem_append.mp hn with h1 | h2
      · by_cases he : (findComma s).1 = []
        · simp [he] at h1
        · simp only [he, ne_eq, not_false_eq_true, if_true, List.mem_singleton] at h1
          subst h1
          exact ⟨he, findComma_name_no_comma s⟩
      · cases hf : (findComma s).2 with
        | none => simp [hf] at h2
        | some next =>
            simp only [hf] at h2
            have hl := findComma_next_length s next hf
            exact ih next (by omega) n h2

theorem commaTokens_mem (s : List Char) : ∀ n ∈ commaTokens s, n ≠ [] ∧ ',' ∉ n :=
  commaTokens_mem_aux (s.length + 1) s (Nat.lt_succ_self _)


theorem addNamedTx_ok (w : TxWorld) (m : MultiTx) (n : List Char) :
    (addNamedTx w m n).1 = usable w m.txs.length n := by
  unfold addNamedTx usable
  by_cases h0 : w.createNamedTx m.txs.length n = 0
  · simp [h0]
  · cases hi : w.txInitialise (w.createNamedTx m.txs.length n) <;> simp [h0, hi]

theorem addNamedTx_names (w : TxWorld) (m : MultiTx) (n : List Char) :
    resolvedNames (addNamedTx w m n).2.2 = [n] := by
  unfold addNamedTx
  by_cases h0 : w.createNamedTx m.txs.length n = 0
  · simp [h0, resolvedNames]
  · cases hi : w.txInitialise (w.createNamedTx m.txs.length n) <;>
      simp [h0, hi, resolvedNames]

theorem addNamedTx_state (w : TxWorld) (m : MultiTx) (n : List Char) :
    (addNamedTx w m n).2.1 =
      if usable w m.txs.length n then
        { m with txs := m.txs ++ [w.createNamedTx m.txs.length n] }
      else m := by
  unfold addNamedTx usable
  by_cases h0 : w.createNamedTx m.txs.length n = 0
  · simp [h0]
  · cases hi : w.txInitialise (w.createNamedTx m.txs.length n) <;> simp [h0, hi]

theorem resolvedNames_append (xs ys : List Effect) :
    resolvedNames (xs ++ ys) = resolvedNames xs ++ resolvedNames ys := by
  induction xs with
  | nil => rfl
  | cons e rest ih => cases e <;> simp [resolvedNames, ih]

theorem resolvedNames_setSystemLatency (m : MultiTx) (l : Int) :
    resolvedNames (m.setSystemLatency l) = [] := by
  rw [MultiTx.setSystemLatency, forEachTx_eq_map]
  induction m.txs with
  | nil => rfl
  | cons it rest ih => simpa [resolvedNames] using ih

theorem loopOverNames_ok (w : TxWorld) (ns : List (List Char)) :
    ∀ m : MultiTx, (loopOverNames w ns m).1 = allUsable w m.txs.length ns := by
  induction ns with
  | nil => intro m; rfl
  | cons n rest ih =>
      intro m
      unfold loopOverNames allUsable
      have hs := addNamedTx_state w m n
      have ho := addNamedTx_ok w m n
      cases hu : usable w m.txs.length n
      · simp [ho, hu]
      · simp only [ho, hu, Bool.true_eq_false, if_false, Bool.true_and]
        rw [ih, hs, hu]
        simp

theorem loopOverNames_names (w : TxWorld) (ns : List (List Char)) :
    ∀ m : MultiTx,
      resolvedNames (loopOverNames w ns m).2.2 = upToFirstFailure w m.txs.length ns := by
  induction ns with
  | nil => intro m; rfl
  | cons n rest ih =>
      intro m
      unfold loopOverNames upToFirstFailure
      have hs := addNamedTx_state w m n
      have ho := addNamedTx_ok w m n
      have hn := addNamedTx_names w m n
      cases hu : usable w m.txs.length n
      · simp [ho, hu, hn]
      · simp only [ho, hu, Bool.true_eq_false, if_false, if_true, resolvedNames_append, hn]
        rw [ih, hs, hu]
        simp

theorem loopOverNames_state (w : TxWorld) (ns : List (List Char)) :
    ∀ m : MultiTx, allUsable w m.txs.length ns = true →
      (loopOverNames w ns m).2.1 = { m with txs := m.txs ++ backendsOf w m.txs.length ns } := by
  induction ns with
  | nil => intro m _; simp [loopOverNames, backendsOf]
  | cons n rest ih =>
      intro m hall
      unfold allUsable at hall
      rw [Bool.and_eq_true] at hall
      unfold loopOverNames backendsOf
      have hs := addNamedTx_state w m n
      have ho := addNamedTx_ok w m n
      simp only [ho, hall.1, Bool.true_eq_false, if_false]
      rw [hs, hall.1] at *
      simp only [if_true]
      rw [ih]
      · simp
      · simpa using hall.2

theorem upToFirstFailure_of_allUsable (w : TxWorld) (ns : List (List Char)) :
    ∀ k, allUsable w k ns = true → upToFirstFailure w k ns = ns := by
  induction ns with
  | nil => intro k _; rfl
  | cons n rest ih =>
      intro k hall
      unfold allUsable at hall
      rw [Bool.and_eq_true] at hall
      unfold upToFirstFailure
      simp [hall.1, ih (k + 1) hall.2]

theorem initLoop_eq (w : TxWorld) :
    ∀ (fuel : Nat) (s : List Char) (m : MultiTx) (done : List Effect), s.length < fuel →
      initLoop w fuel s m done =
        some ((loopOverNames w (commaTokens s) m).1, (loopOverNames w (commaTokens s) m).2.1,
          done ++ (loopOverNames w (commaTokens s) m).2.2) := by
  intro fuel
  induction fuel with
  | zero => intro s m done h; omega
  | succ fuel ih =>
      intro s m done hlen
      rw [commaTokens_unfold s]
      unfold initLoop
      by_cases he : (findComma s).1 = []
      · cases hf : (findComma s).2 with
        | none => simp [he, hf, loopOverNames]
        | some next =>
            have hl := findComma_next_length s next hf
            simp only [he, hf, ne_eq, not_true_eq_false, if_false, Bool.true_eq_false,
              List.nil_append, List.append_nil]
            exact ih next m done (by omega)
      · cases ha : (addNamedTx w m (findComma s).1).1
        · cases hf : (findComma s).2 <;> simp [he, ha, hf, loopOverNames]
        · cases hf : (findComma s).2 with
          | none => simp [he, ha, hf, loopOverNames]
          | some next =>
              have hl := findComma_next_length s next hf
              simp only [he, hf, ne_eq, not_false_eq_true, if_true, ha, Bool.true_eq_false,
                if_false, List.singleton_append, loopOverNames]
              rw [ih next _ _ (by omega)]
              simp


theorem initialise_eq (w : TxWorld) (m : MultiTx) (sim : Option (List Char)) (s : List Char) :
    initialise { transmitters := some s, simulcast := sim } w m =
      some
        (if (loopOverNames w (commaTokens s) m).1 = false then
          (false, (loopOverNames w (commaTokens s) m).2.1, (loopOverNames w (commaTokens s) m).2.2)
        else
          match sim with
          | some _ =>
              (true, { (loopOverNames w (commaTokens s) m).2.1 with system_latency := 10 },
                (loopOverNames w (commaTokens s) m).2.2 ++
                  MultiTx.setSystemLatency
                    { (loopOverNames w (commaTokens s) m).2.1 with system_latency := 10 } 10)
          | none =>
              (true, (loopOverNames w (commaTokens s) m).2.1,
                (loopOverNames w (commaTokens s) m).2.2)) := by
  unfold initialise
  simp only [initLoop_eq w (s.length + 1) s m [] (Nat.lt_succ_self _), List.nil_append]
  cases hok : (loopOverNames w (commaTokens s) m).1 <;> cases sim <;> simp


/-! ## The latency consensus -/

/-- C1, where the code departs from the claim.  Backends `A`, `B`, `C` have reported `10`, `30`,
`20`, so `B` holds the maximum and `system_latency` is `30`.  When `B` then reports `5`, the loop
of `onLatencyChanged` compares the entry of the reporting backend in every round, and
`next_latency` becomes `5`, while the maximum of the recorded latencies is `max(10, 5, 20) = 20`. -/
theorem c1_staged_value_is_reporters_entry (garbage : Tx) :
    (afterThreeReports garbage).maxlatencyTx = 2 ∧
    (afterThreeReports garbage).system_latency = 30 ∧
    (afterThreeReports garbage).next_latency = 0 ∧
    ((afterThreeReports garbage).onLatencyChanged 5 2).1.next_latency = 5 ∧
    recordedMax ((afterThreeReports garbage).onLatencyChanged 5 2).1 = some 20 ∧
    ((afterThreeReports garbage).onLatencyChanged 5 2).1.system_latency = 30 := by
  refine ⟨rfl, rfl, rfl, rfl, rfl, rfl⟩

/-- C2: `system_latency` decreases only across a transmit-state-change step.  After any sequence
`pre` of events, a step `e` that lowers `system_latency` is a transmit-state change; no call of
`onLatencyChanged` lowers `system_latency`; and a lower report of the max-holder leaves
`system_latency` as it is and makes no call on any backend. -/
theorem c2_system_latency_lowered_only_by_state_change (m : MultiTx) (pre : List Event)
    (e : Event) (latency : Int) (tx : Tx) :
    ((step (run m pre).1 e).1.system_latency < (run m pre).1.system_latency →
        e.isStateChange = true) ∧
    m.system_latency ≤ (m.onLatencyChanged latency tx).1.system_latency ∧
    (tx = m.maxlatencyTx → latency < m.system_latency →
        (m.onLatencyChanged latency tx).1.system_latency = m.system_latency ∧
        (m.onLatencyChanged latency tx).2 = []) := by
  refine ⟨?_, ?_, ?_⟩
  · intro h
    cases e with
    | latencyChanged l t =>
        simp only [step, onLatencyChanged_system_latency] at h
        omega
    | transmitterStateChange b flags => rfl
  · rw [onLatencyChanged_system_latency]
    omega
  · intro _ hlt
    have hle : ¬ latency > m.system_latency := by omega
    constructor
    · rw [onLatencyChanged_system_latency]
      omega
    · rw [onLatencyChanged_of_le m latency tx hle]

theorem c2_system_latency_lowered_only_by_state_change_witness :
    (step (run (afterThreeReports 0) [Event.latencyChanged 5 2]).1
        (Event.transmitterStateChange true flagsA)).1.system_latency
      < (run (afterThreeReports 0) [Event.latencyChanged 5 2]).1.system_latency ∧
    (Event.transmitterStateChange true flagsA).isStateChange = true ∧
    (2 : Tx) = (afterThreeReports 0).maxlatencyTx ∧
    (5 : Int) < (afterThreeReports 0).system_latency ∧
    ((afterThreeReports 0).onLatencyChanged 5 2).1.system_latency
      = (afterThreeReports 0).system_latency ∧
    ((afterThreeReports 0).onLatencyChanged 5 2).2 = [] :=
  ⟨by decide,
   (c2_system_latency_lowered_only_by_state_change (afterThreeReports 0)
      [Event.latencyChanged 5 2] (Event.transmitterStateChange true flagsA) 5 2).1 (by decide),
   rfl, by decide,
   (c2_system_latency_lowered_only_by_state_change (afterThreeReports 0)
      [Event.latencyChanged 5 2] (Event.transmitterStateChange true flagsA) 5 2).2.2 rfl
      (by decide)⟩

/-- C3: a report above `system_latency` is applied at once.  After `onLatencyChanged(l, tx)` with
`l > system_latency`, `system_latency` is `l`, `tx` is the max-holder, and the calls made during
the handler are exactly one `setSystemLatency(l)` per owned backend, in insertion order. -/
theorem c3_increase_applied_immediately (m : MultiTx) (latency : Int) (tx : Tx)
    (h : latency > m.system_latency) :
    (m.onLatencyChanged latency tx).1.system_latency = latency ∧
    (m.onLatencyChanged latency tx).1.maxlatencyTx = tx ∧
    (m.onLatencyChanged latency tx).2
      = m.txs.map (fun it => Effect.txSetSystemLatency it latency) := by
  rw [onLatencyChanged_of_gt m latency tx h]
  refine ⟨rfl, rfl, ?_⟩
  simp only [MultiTx.setSystemLatency, forEachTx_eq_map]

theorem c3_increase_applied_immediately_witness :
    (30 : Int) > (run (threeBackends 0) [Event.latencyChanged 10 1]).1.system_latency ∧
    (run (threeBackends 0) [Event.latencyChanged 10 1, Event.latencyChanged 30 2]).1.system_latency
      = 30 ∧
    (run (threeBackends 0) [Event.latencyChanged 10 1, Event.latencyChanged 30 2]).1.maxlatencyTx
      = 2 ∧
    ((run (threeBackends 0) [Event.latencyChanged 10 1]).1.onLatencyChanged 30 2).2
      = [Effect.txSetSystemLatency 1 30, Effect.txSetSystemLatency 2 30,
         Effect.txSetSystemLatency 3 30] :=
  ⟨by decide,
   (c3_increase_applied_immediately (run (threeBackends 0) [Event.latencyChanged 10 1]).1 30 2
      (by decide)).1,
   (c3_increase_applied_immediately (run (threeBackends 0) [Event.latencyChanged 10 1]).1 30 2
      (by decide)).2.1,
   (c3_increase_applied_immediately (run (threeBackends 0) [Event.latencyChanged 10 1]).1 30 2
      (by decide)).2.2⟩

/-- C4: `onTransmitterStateChange(b)` commits the staged value.  For both polarities and whatever
the transmit flags are, `system_latency` becomes the `next_latency` of entry, every owned backend
receives `setSystemLatency` of that value exactly once, in insertion order, and `next_latency`,
the max-holder, the latency map and the owned collection are left as they were. -/
theorem c4_state_change_commits_next_latency (m : MultiTx) (flags : Tx → Bool) (b : Bool) :
    (m.onTransmitterStateChange flags b).1.system_latency = m.next_latency ∧
    latencyPushes (m.onTransmitterStateChange flags b).2
      = m.txs.map (fun it => (it, m.next_latency)) ∧
    (m.onTransmitterStateChange flags b).1.next_latency = m.next_latency ∧
    (m.onTransmitterStateChange flags b).1.maxlatencyTx = m.maxlatencyTx ∧
    (m.onTransmitterStateChange flags b).1.tx_latencystore = m.tx_latencystore ∧
    (m.onTransmitterStateChange flags b).1.txs = m.txs := by
  refine ⟨rfl, ?_, rfl, rfl, rfl, rfl⟩
  simp only [MultiTx.onTransmitterStateChange, latencyPushes_append,
    latencyPushes_setSystemLatency]
  split <;> simp [latencyPushes]

/-! ## The aggregate transmit state -/

/-- C5: `isTransmitting()` is true exactly when at least one owned backend is transmitting, also
for the empty collection; the result is computed from the owned collection and the current flags
of the backends alone, whatever the other members of the controller hold. -/
theorem c5_isTransmitting_is_or_of_flags (m : MultiTx) (flags : Tx → Bool)
    (sl nl : Int) (holder : Tx) (store : LatencyStore) :
    (m.isTransmitting flags = true ↔ ∃ it ∈ m.txs, flags it = true) ∧
    (MultiTx.new holder).isTransmitting flags = false ∧
    MultiTx.isTransmitting
      { txs := m.txs, system_latency := sl, next_latency := nl, maxlatencyTx := holder,
        tx_latencystore := store } flags = m.isTransmitting flags := by
  refine ⟨?_, rfl, rfl⟩
  rw [isTransmitting_eq_any, List.any_eq_true]

/-- C6: `onTransmitterStateChange(b)` emits the aggregate event exactly once, with payload `b`,
when `b` equals the logical OR of the flags of all owned backends, and emits nothing otherwise. -/
theorem c6_event_emitted_iff_report_equals_or (m : MultiTx) (flags : Tx → Bool) (b : Bool) :
    emitted (m.onTransmitterStateChange flags b).2
      = if b = m.txs.any flags then [b] else [] :=
  emitted_onTransmitterStateChange m flags b

/-- C7, the claim as stated fails: with `A` and `B` owned and `A` already transmitting, the report
`onTransmitterStateChange(true)` of `B` does emit the aggregate event, and over the sequence
"`A` starts, `B` starts" two aggregate events are emitted, not one. -/
theorem c7_second_start_is_emitted_again :
    emitted ((twoBackends 0).onTransmitterStateChange flagsAB true).2 = [true] ∧
    emitted (run (twoBackends 0)
      [Event.transmitterStateChange true flagsA, Event.transmitterStateChange true flagsAB]).2
      = [true, true] := by
  constructor <;> rfl

/-- C7 as amended: when an owned backend `B` is transmitting and reports
`onTransmitterStateChange(true)`, the aggregate emits `transmitterStateChange(true)` exactly once,
whether or not another backend was transmitting before; over the sequence "`A` starts, `B`
starts" two aggregate events are emitted.  What is suppressed is a report whose polarity differs
from the OR of the current flags: a `false` report while some owned backend still transmits. -/
theorem c7_true_report_always_emitted (m : MultiTx) (flags1 flags2 : Tx → Bool) (A B : Tx)
    (hA : A ∈ m.txs) (hB : B ∈ m.txs) (hA1 : flags1 A = true) (hB2 : flags2 B = true) :
    emitted (m.onTransmitterStateChange flags2 true).2 = [true] ∧
    emitted (run m [Event.transmitterStateChange true flags1,
                    Event.transmitterStateChange true flags2]).2 = [true, true] ∧
    emitted (m.onTransmitterStateChange flags2 false).2 = [] := by
  have h1 : m.txs.any flags1 = true := List.any_eq_true.mpr ⟨A, hA, hA1⟩
  have h2 : m.txs.any flags2 = true := List.any_eq_true.mpr ⟨B, hB, hB2⟩
  have hrun : emitted (run m [Event.transmitterStateChange true flags1,
      Event.transmitterStateChange true flags2]).2
      = emitted (m.onTransmitterStateChange flags1 true).2
        ++ emitted ((m.onTransmitterStateChange flags1 true).1.onTransmitterStateChange
            flags2 true).2 := by
    simp [run, step, emitted_append]
  refine ⟨?_, ?_, ?_⟩
  · rw [emitted_onTransmitterStateChange, h2]; rfl
  · rw [hrun, emitted_onTransmitterStateChange, emitted_onTransmitterStateChange]
    have : (m.onTransmitterStateChange flags1 true).1.txs = m.txs := rfl
    rw [this, h1, h2]; rfl
  · rw [emitted_onTransmitterStateChange, h2]; rfl

theorem c7_true_report_always_emitted_witness :
    (1 : Tx) ∈ (twoBackends 0).txs ∧ (2 : Tx) ∈ (twoBackends 0).txs ∧
    flagsA 1 = true ∧ flagsAB 2 = true ∧
    emitted ((twoBackends 0).onTransmitterStateChange flagsAB true).2 = [true] ∧
    emitted (run (twoBackends 0) [Event.transmitterStateChange true flagsA,
                    Event.transmitterStateChange true flagsAB]).2 = [true, true] ∧
    emitted ((twoBackends 0).onTransmitterStateChange flagsAB false).2 = [] :=
  ⟨by decide, by decide, by decide, by decide,
   c7_true_report_always_emitted (twoBackends 0) flagsA flagsAB 1 2 (by decide) (by decide)
     (by decide) (by decide)⟩


/-! ## Broadcast commands -/

/-- C8: each broadcast command makes exactly one call of the corresponding operation per owned
backend, in insertion order and with the argument unchanged, so `N` calls for `N` backends; the
calls are determined by the owned collection and the argument alone. -/
theorem c8_broadcast_reaches_every_backend_in_order (m : MultiTx) (mode : TxCtrlMode)
    (enable : Bool) (digits : List Char) (siglev : CFloat) :
    (m.setTxCtrlMode mode = m.txs.map (fun it => Effect.txSetTxCtrlMode it mode) ∧
      (m.setTxCtrlMode mode).length = m.txs.length) ∧
    (m.enableCtcss enable = m.txs.map (fun it => Effect.txEnableCtcss it enable) ∧
      (m.enableCtcss enable).length = m.txs.length) ∧
    (m.sendDtmf digits = m.txs.map (fun it => Effect.txSendDtmf it digits) ∧
      (m.sendDtmf digits).length = m.txs.length) ∧
    (m.setTransmittedSignalStrength siglev
        = m.txs.map (fun it => Effect.txSetTransmittedSignalStrength it siglev) ∧
      (m.setTransmittedSignalStrength siglev).length = m.txs.length) := by
  simp [MultiTx.setTxCtrlMode, MultiTx.enableCtcss, MultiTx.sendDtmf,
    MultiTx.setTransmittedSignalStrength, forEachTx_eq_map]

/-! ## Initialisation -/

/-- C9, the claim as stated fails: with `TRANSMITTERS` set to `a,b` and a factory that does not
know `a`, the only name handed to the factory is `a`, while the non-empty comma-free pieces of
the text are `a` and `b`. -/
theorem c9_names_after_a_failure_are_not_resolved :
    (initialise { transmitters := some "a,b".toList, simulcast := none } worldOnlyB
        (MultiTx.new 0)).map (fun r => (r.1, resolvedNames r.2.2))
      = some (false, ["a".toList]) ∧
    commaTokens "a,b".toList = ["a".toList, "b".toList] := by
  constructor <;> decide

/-- C9 as amended: for every `TRANSMITTERS` text, `initialize` returns, and the names it hands
to the factory are the non-empty maximal comma-free pieces of the text, from left to right, up to
and including the first one that fails to resolve or to initialise; no such piece is empty or
contains a comma.  When every piece resolves and initialises, `initialize` returns `true`, the
names handed to the factory are exactly all the pieces, and the backends returned for them are
appended to the owned collection in that order. -/
theorem c9_resolved_names_are_tokens_up_to_first_failure (w : TxWorld) (m : MultiTx)
    (sim : Option (List Char)) (s : List Char) :
    ∃ ok m1 eff,
      initialise { transmitters := some s, simulcast := sim } w m = some (ok, m1, eff) ∧
      resolvedNames eff = upToFirstFailure w m.txs.length (commaTokens s) ∧
      (∀ n ∈ commaTokens s, n ≠ [] ∧ ',' ∉ n) ∧
      (allUsable w m.txs.length (commaTokens s) = true →
        ok = true ∧ resolvedNames eff = commaTokens s ∧
        m1.txs = m.txs ++ backendsOf w m.txs.length (commaTokens s)) := by
  have hok := loopOverNames_ok w (commaTokens s) m
  have hnames := loopOverNames_names w (commaTokens s) m
  rw [initialise_eq]
  cases hall : allUsable w m.txs.length (commaTokens s)
  · rw [hall] at hok
    refine ⟨_, _, _, by rw [if_pos hok], hnames, commaTokens_mem s, ?_⟩
    intro h
    cases h
  · rw [hall] at hok
    have hstate := loopOverNames_state w (commaTokens s) m hall
    have hup := upToFirstFailure_of_allUsable w (commaTokens s) m.txs.length hall
    have hne : ¬ (loopOverNames w (commaTokens s) m).1 = false := by simp [hok]
    cases sim with
    | none =>
        refine ⟨_, _, _, by rw [if_neg hne], hnames, commaTokens_mem s, ?_⟩
        intro _
        exact ⟨rfl, by rw [hnames, hup], by rw [hstate]⟩
    | some v =>
        refine ⟨_, _, _, by rw [if_neg hne], ?_, commaTokens_mem s, ?_⟩
        · rw [resolvedNames_append, resolvedNames_setSystemLatency, hnames, List.append_nil]
        · intro _
          refine ⟨rfl, ?_, by rw [hstate]⟩
          rw [resolvedNames_append, resolvedNames_setSystemLatency, hnames, hup,
            List.append_nil]

theorem c9_resolved_names_are_tokens_up_to_first_failure_witness :
    allUsable worldABC (MultiTx.new 0).txs.length (commaTokens "a,b,,c,".toList) = true ∧
    ∃ ok m1 eff,
      initialise { transmitters := some "a,b,,c,".toList, simulcast := none } worldABC
        (MultiTx.new 0) = some (ok, m1, eff) ∧
      ok = true ∧ resolvedNames eff = ["a".toList, "b".toList, "c".toList] ∧
      m1.txs = [1, 2, 3] := by
  obtain ⟨ok, m1, eff, h1, _, _, h4⟩ :=
    c9_resolved_names_are_tokens_up_to_first_failure worldABC (MultiTx.new 0) none
      "a,b,,c,".toList
  exact ⟨by decide, ok, m1, eff, h1, (h4 (by decide)).1, (h4 (by decide)).2.1,
    (h4 (by decide)).2.2⟩

/-- C10, the claim as stated fails: with `TRANSMITTERS` set to the empty text, to `,` or to
`,,`, no usable name is found and `initialize` returns `true`. -/
theorem c10_no_usable_name_still_succeeds :
    (commaTokens "".toList = [] ∧
      (initialise { transmitters := some "".toList, simulcast := none } worldABC
        (MultiTx.new 0)).map (fun r => (r.1, r.2.1.txs, r.2.2)) = some (true, [], [])) ∧
    (commaTokens ",".toList = [] ∧
      (initialise { transmitters := some ",".toList, simulcast := none } worldABC
        (MultiTx.new 0)).map (fun r => (r.1, r.2.1.txs, r.2.2)) = some (true, [], [])) ∧
    (commaTokens ",,".toList = [] ∧
      (initialise { transmitters := some ",,".toList, simulcast := none } worldABC
        (MultiTx.new 0)).map (fun r => (r.1, r.2.1.txs, r.2.2)) = some (true, [], [])) := by
  refine ⟨⟨?_, ?_⟩, ⟨?_, ?_⟩, ⟨?_, ?_⟩⟩ <;> decide

/-- C10 as amended: for every `TRANSMITTERS` value that is set and yields no usable name, such
as the empty text, `,` or `,,`, `initialize` reports success (returns `true`); it hands no name
to the factory and leaves the owned collection as it was. -/
theorem c10_zero_names_returns_true (w : TxWorld) (m : MultiTx) (sim : Option (List Char))
    (s : List Char) (h0 : commaTokens s = []) :
    ∃ m1 eff,
      initialise { transmitters := some s, simulcast := sim } w m = some (true, m1, eff) ∧
      resolvedNames eff = [] ∧ m1.txs = m.txs := by
  rw [initialise_eq, h0]
  cases sim with
  | none => exact ⟨_, _, rfl, rfl, rfl⟩
  | some v =>
      refine ⟨_, _, rfl, ?_, rfl⟩
      simp only [loopOverNames, List.nil_append]
      exact resolvedNames_setSystemLatency _ _

theorem c10_zero_names_returns_true_witness :
    commaTokens ",,".toList = [] ∧
    ∃ m1 eff,
      initialise { transmitters := some ",,".toList, simulcast := some [] } worldOnlyB
        (MultiTx.new 0) = some (true, m1, eff) ∧
      resolvedNames eff = [] ∧ m1.txs = (MultiTx.new 0).txs :=
  ⟨by decide, c10_zero_names_returns_true worldOnlyB (MultiTx.new 0) (some []) ",,".toList
    (by decide)⟩


/-! ## Further facts about the initialisation loop -/

theorem allUsable_append (w : TxWorld) (pre rest : List (List Char)) :
    ∀ k, allUsable w k (pre ++ rest)
      = (allUsable w k pre && allUsable w (k + pre.length) rest) := by
  induction pre with
  | nil => intro k; simp [allUsable]
  | cons n pre ih =>
      intro k
      have hk : k + 1 + pre.length = k + (pre.length + 1) := by omega
      show allUsable w k (n :: (pre ++ rest)) = _
      simp only [allUsable, ih (k + 1), List.length_cons, Bool.and_assoc, hk]

theorem upToFirstFailure_append (w : TxWorld) (pre rest : List (List Char)) :
    ∀ k, allUsable w k pre = true →
      upToFirstFailure w k (pre ++ rest) = pre ++ upToFirstFailure w (k + pre.length) rest := by
  induction pre with
  | nil => intro k _; simp
  | cons n pre ih =>
      intro k h
      unfold allUsable at h
      rw [Bool.and_eq_true] at h
      have hk : k + 1 + pre.length = k + (pre.length + 1) := by omega
      show upToFirstFailure w k (n :: (pre ++ rest)) = _
      simp only [List.cons_append, upToFirstFailure, h.1, if_true, ih (k + 1) h.2,
        List.length_cons, hk]

theorem backendsOf_append (w : TxWorld) (pre rest : List (List Char)) :
    ∀ k, backendsOf w k (pre ++ rest) = backendsOf w k pre ++ backendsOf w (k + pre.length) rest := by
  induction pre with
  | nil => intro k; simp [backendsOf]
  | cons n pre ih =>
      intro k
      have hk : k + 1 + pre.length = k + (pre.length + 1) := by omega
      show backendsOf w k (n :: (pre ++ rest)) = _
      simp only [List.cons_append, backendsOf, ih (k + 1), List.length_cons, hk]

theorem initialisedTxs_append (xs ys : List Effect) :
    initialisedTxs (xs ++ ys) = initialisedTxs xs ++ initialisedTxs ys := by
  induction xs with
  | nil => rfl
  | cons e rest ih => cases e <;> simp [initialisedTxs, ih]

theorem constructed_append (xs ys : List Effect) :
    constructed (xs ++ ys) = constructed xs ++ constructed ys := by
  induction xs with
  | nil => rfl
  | cons e rest ih =>
      cases e <;> simp [constructed, ih]
      split <;> simp

theorem addNamedTx_initialised (w : TxWorld) (m : MultiTx) (n : List Char) :
    initialisedTxs (addNamedTx w m n).2.2
      = [w.createNamedTx m.txs.length n].filter (fun tx => tx != 0) ∧
    constructed (addNamedTx w m n).2.2
      = [w.createNamedTx m.txs.length n].filter (fun tx => tx != 0) := by
  unfold addNamedTx
  by_cases h0 : w.createNamedTx m.txs.length n = 0
  · simp [h0, initialisedTxs, constructed]
  · cases hi : w.txInitialise (w.createNamedTx m.txs.length n) <;>
      simp [h0, hi, initialisedTxs, constructed]

theorem loopOverNames_initialised (w : TxWorld) (ns : List (List Char)) :
    ∀ m : MultiTx,
      initialisedTxs (loopOverNames w ns m).2.2
        = (backendsOf w m.txs.length (upToFirstFailure w m.txs.length ns)).filter
            (fun tx => tx != 0) ∧
      constructed (loopOverNames w ns m).2.2
        = (backendsOf w m.txs.length (upToFirstFailure w m.txs.length ns)).filter
            (fun tx => tx != 0) := by
  induction ns with
  | nil => intro m; exact ⟨rfl, rfl⟩
  | cons n rest ih =>
      intro m
      unfold loopOverNames upToFirstFailure
      have hs := addNamedTx_state w m n
      have ho := addNamedTx_ok w m n
      have hi := addNamedTx_initialised w m n
      cases hu : usable w m.txs.length n
      · simp only [ho, hu, if_true, Bool.false_eq_true, if_false, backendsOf]
        exact hi
      · simp only [ho, hu, Bool.true_eq_false, if_false, if_true, initialisedTxs_append,
          constructed_append, hi.1, hi.2, backendsOf]
        have hih := ih (addNamedTx w m n).2.1
        rw [hs, hu] at hih ⊢
        simp only [if_true, List.length_append, List.length_singleton] at hih ⊢
        rw [hih.1, hih.2]
        by_cases h0 : w.createNamedTx m.txs.length n = 0 <;> simp [h0, List.filter_cons]

theorem initialise_absent (w : TxWorld) (m : MultiTx) (sim : Option (List Char)) :
    initialise { transmitters := none, simulcast := sim } w m = some (false, m, []) := rfl

theorem initialise_of_not_allUsable (w : TxWorld) (m : MultiTx) (sim : Option (List Char))
    (s : List Char) (h : allUsable w m.txs.length (commaTokens s) = false) :
    initialise { transmitters := some s, simulcast := sim } w m
      = some (false, (loopOverNames w (commaTokens s) m).2.1,
          (loopOverNames w (commaTokens s) m).2.2) := by
  rw [initialise_eq, if_pos]
  rw [loopOverNames_ok, h]

theorem initialise_of_allUsable (w : TxWorld) (m : MultiTx) (sim : Option (List Char))
    (s : List Char) (h : allUsable w m.txs.length (commaTokens s) = true) :
    initialise { transmitters := some s, simulcast := sim } w m
      = some (match sim with
          | some _ =>
              (true,
                { m with txs := m.txs ++ backendsOf w m.txs.length (commaTokens s),
                         system_latency := 10 },
                (loopOverNames w (commaTokens s) m).2.2 ++
                  MultiTx.setSystemLatency
                    { m with txs := m.txs ++ backendsOf w m.txs.length (commaTokens s),
                             system_latency := 10 } 10)
          | none =>
              (true, { m with txs := m.txs ++ backendsOf w m.txs.length (commaTokens s) },
                (loopOverNames w (commaTokens s) m).2.2)) := by
  rw [initialise_eq, if_neg]
  · rw [loopOverNames_state w (commaTokens s) m h]
  · rw [loopOverNames_ok, h]
    simp


theorem addNamedTx_latencyPushes (w : TxWorld) (m : MultiTx) (n : List Char) :
    latencyPushes (addNamedTx w m n).2.2 = [] := by
  unfold addNamedTx
  by_cases h0 : w.createNamedTx m.txs.length n = 0
  · simp [h0, latencyPushes]
  · cases hi : w.txInitialise (w.createNamedTx m.txs.length n) <;>
      simp [h0, hi, latencyPushes]

theorem loopOverNames_latencyPushes (w : TxWorld) (ns : List (List Char)) :
    ∀ m : MultiTx, latencyPushes (loopOverNames w ns m).2.2 = [] := by
  induction ns with
  | nil => intro m; rfl
  | cons n rest ih =>
      intro m
      unfold loopOverNames
      have hp := addNamedTx_latencyPushes w m n
      cases ha : (addNamedTx w m n).1
      · simpa [ha] using hp
      · simp [ha, latencyPushes_append, hp, ih]

theorem run_latency_reports_mono (es : List Event) :
    ∀ m : MultiTx, (∀ e ∈ es, e.isStateChange = false) →
      m.system_latency ≤ (run m es).1.system_latency := by
  induction es with
  | nil => intro m _; exact le_refl _
  | cons e rest ih =>
      intro m h
      have he := h e (List.mem_cons_self _ _)
      have hrest := ih (step m e).1 (fun x hx => h x (List.mem_cons_of_mem _ hx))
      cases e with
      | latencyChanged l t =>
          simp only [run]
          simp only [step] at hrest ⊢
          have := onLatencyChanged_system_latency m l t
          omega
      | transmitterStateChange b flags => simp [Event.isStateChange] at he

/-- C11: `initialize` returns `false` when `TRANSMITTERS` is not set, and when some name is not
usable, i.e. fails to resolve or resolves to a backend whose own `initialize` returns `false`.
In that case it stops at the first such name: with the names `pre ++ bad :: post`, where all of
`pre` are usable and `bad` is not, the names handed to the factory are `pre` and `bad` and
`initialize()` is called only on the backends returned for them; nothing of `post` is touched. -/
theorem c11_initialize_fails_at_first_failing_name (w : TxWorld) (m : MultiTx)
    (sim : Option (List Char)) (s : List Char) :
    initialise { transmitters := none, simulcast := sim } w m = some (false, m, []) ∧
    (allUsable w m.txs.length (commaTokens s) = false →
      ∃ m1 eff,
        initialise { transmitters := some s, simulcast := sim } w m = some (false, m1, eff)) ∧
    (∀ pre bad post, commaTokens s = pre ++ bad :: post →
      allUsable w m.txs.length pre = true →
      usable w (m.txs.length + pre.length) bad = false →
      ∃ m1 eff,
        initialise { transmitters := some s, simulcast := sim } w m = some (false, m1, eff) ∧
        resolvedNames eff = pre ++ [bad] ∧
        initialisedTxs eff
          = (backendsOf w m.txs.length (pre ++ [bad])).filter (fun tx => tx != 0)) := by
  refine ⟨rfl, ?_, ?_⟩
  · intro h
    exact ⟨_, _, initialise_of_not_allUsable w m sim s h⟩
  · intro pre bad post hsplit hpre hbad
    have hall : allUsable w m.txs.length (commaTokens s) = false := by
      rw [hsplit, allUsable_append, hpre]
      simp [allUsable, hbad]
    have hup : upToFirstFailure w m.txs.length (commaTokens s) = pre ++ [bad] := by
      rw [hsplit, upToFirstFailure_append w pre (bad :: post) _ hpre]
      simp [upToFirstFailure, hbad]
    refine ⟨_, _, initialise_of_not_allUsable w m sim s hall, ?_, ?_⟩
    · rw [loopOverNames_names, hup]
    · rw [(loopOverNames_initialised w (commaTokens s) m).1, hup]

theorem c11_initialize_fails_at_first_failing_name_witness :
    commaTokens "b,a,c".toList = ["b".toList] ++ "a".toList :: ["c".toList] ∧
    allUsable worldOnlyB (MultiTx.new 0).txs.length ["b".toList] = true ∧
    usable worldOnlyB ((MultiTx.new 0).txs.length + ["b".toList].length) "a".toList = false ∧
    ∃ m1 eff,
      initialise { transmitters := some "b,a,c".toList, simulcast := none } worldOnlyB
        (MultiTx.new 0) = some (false, m1, eff) ∧
      resolvedNames eff = ["b".toList] ++ ["a".toList] ∧
      initialisedTxs eff
        = (backendsOf worldOnlyB (MultiTx.new 0).txs.length (["b".toList] ++ ["a".toList])).filter
            (fun tx => tx != 0) :=
  ⟨by decide, by decide, by decide,
   (c11_initialize_fails_at_first_failing_name worldOnlyB (MultiTx.new 0) none
      "b,a,c".toList).2.2 ["b".toList] "a".toList ["c".toList] (by decide) (by decide)
      (by decide)⟩

/-- C12: when `initialize` succeeds and `SIMULCAST` is set, to whatever value, then right after
`initialize` the member `system_latency` is `10`, the `setSystemLatency` calls made are exactly
one call with `10` per owned backend, in insertion order, and the latency map is as it was before
the call (empty after construction): no report has been recorded. -/
theorem c12_simulcast_starts_at_ten (w : TxWorld) (m : MultiTx) (cfg : Config)
    (v : List Char) (m1 : MultiTx) (eff : List Effect)
    (hsim : cfg.simulcast = some v)
    (hinit : initialise cfg w m = some (true, m1, eff)) :
    m1.system_latency = 10 ∧
    latencyPushes eff = m1.txs.map (fun it => (it, 10)) ∧
    m1.tx_latencystore = m.tx_latencystore := by
  obtain ⟨tr, si⟩ := cfg
  simp only at hsim
  subst hsim
  cases tr with
  | none => simp [initialise] at hinit
  | some s =>
      cases hall : allUsable w m.txs.length (commaTokens s)
      · rw [initialise_of_not_allUsable w m _ s hall] at hinit
        simp at hinit
      · rw [initialise_of_allUsable w m _ s hall] at hinit
        simp only [Option.some.injEq, Prod.mk.injEq, true_and] at hinit
        obtain ⟨h1, h2⟩ := hinit
        subst h1
        subst h2
        refine ⟨rfl, ?_, rfl⟩
        rw [latencyPushes_append, loopOverNames_latencyPushes, List.nil_append,
          latencyPushes_setSystemLatency]

theorem c12_simulcast_starts_at_ten_witness :
    cfgSimulcastAB.simulcast = some [] ∧
    initialise cfgSimulcastAB worldABC (MultiTx.new 0)
      = some (true, simulcastAB, simulcastABEffects) ∧
    simulcastAB.system_latency = 10 ∧
    latencyPushes simulcastABEffects = simulcastAB.txs.map (fun it => (it, 10)) ∧
    simulcastAB.tx_latencystore = (MultiTx.new 0).tx_latencystore :=
  ⟨rfl, rfl,
   c12_simulcast_starts_at_ten worldABC (MultiTx.new 0) cfgSimulcastAB [] simulcastAB
     simulcastABEffects rfl rfl⟩


/-- C13, the claim as stated fails: after a successful `initialize` with `SIMULCAST` set and one
backend `A`, `system_latency` is `10`; when `A` reports `20` and then `5`, the next
transmit-state change commits the staged `5`, and a transmit-state change right after
`initialize` commits the `next_latency` of construction, `0`.  Both are below `10`. -/
theorem c13_simulcast_value_is_not_kept :
    (initialise { transmitters := some "a".toList, simulcast := some [] } worldABC
        (MultiTx.new 0)).map
      (fun r => (r.1, r.2.1.txs, r.2.1.system_latency,
        (run r.2.1 [Event.latencyChanged 20 1, Event.latencyChanged 5 1,
                    Event.transmitterStateChange true flagsA]).1.system_latency,
        (run r.2.1 [Event.transmitterStateChange true flagsA]).1.system_latency))
      = some (true, [1], 10, 5, 0) := by
  decide

/-- C13 as amended: in simulcast mode `10` is the value `system_latency` starts with, not a floor
that is kept.  In every state reached from a successful `initialize` with `SIMULCAST` set by
latency reports alone, `system_latency` is at least `10`; a transmit-state change replaces it by
`next_latency`, whatever that is. -/
theorem c13_simulcast_ten_kept_by_latency_reports (w : TxWorld) (m : MultiTx) (cfg : Config)
    (v : List Char) (m1 : MultiTx) (eff : List Effect) (es : List Event)
    (flags : Tx → Bool) (b : Bool)
    (hsim : cfg.simulcast = some v)
    (hinit : initialise cfg w m = some (true, m1, eff))
    (hes : ∀ e ∈ es, e.isStateChange = false) :
    10 ≤ (run m1 es).1.system_latency ∧
    ((run m1 es).1.onTransmitterStateChange flags b).1.system_latency
      = (run m1 es).1.next_latency := by
  have h10 : m1.system_latency = 10 := by
    obtain ⟨tr, si⟩ := cfg
    simp only at hsim
    subst hsim
    cases tr with
    | none => simp [initialise] at hinit
    | some s =>
        cases hall : allUsable w m.txs.length (commaTokens s)
        · rw [initialise_of_not_allUsable w m _ s hall] at hinit
          simp at hinit
        · rw [initialise_of_allUsable w m _ s hall] at hinit
          simp only [Option.some.injEq, Prod.mk.injEq, true_and] at hinit
          rw [← hinit.1]
  have hmono := run_latency_reports_mono es m1 hes
  exact ⟨by omega, rfl⟩

theorem c13_simulcast_ten_kept_by_latency_reports_witness :
    ({ transmitters := some "a".toList, simulcast := some [] } : Config).simulcast = some [] ∧
    (∀ e ∈ [Event.latencyChanged 20 1, Event.latencyChanged 5 1], e.isStateChange = false) ∧
    10 ≤ (run { MultiTx.new 0 with txs := [1], system_latency := 10 }
            [Event.latencyChanged 20 1, Event.latencyChanged 5 1]).1.system_latency ∧
    ((run { MultiTx.new 0 with txs := [1], system_latency := 10 }
        [Event.latencyChanged 20 1, Event.latencyChanged 5 1]).1.onTransmitterStateChange
          flagsA true).1.system_latency
      = (run { MultiTx.new 0 with txs := [1], system_latency := 10 }
          [Event.latencyChanged 20 1, Event.latencyChanged 5 1]).1.next_latency :=
  ⟨rfl, by decide,
   c13_simulcast_ten_kept_by_latency_reports worldABC (MultiTx.new 0)
     { transmitters := some "a".toList, simulcast := some [] } []
     { MultiTx.new 0 with txs := [1], system_latency := 10 }
     [Effect.createNamedTx "a".toList 1, Effect.txInitialise 1 true,
      Effect.connectSignals 1, Effect.addSink 1, Effect.txSetSystemLatency 1 10]
     [Event.latencyChanged 20 1, Event.latencyChanged 5 1] flagsA true rfl rfl (by decide)⟩

/-- C14, where the code departs from the claim.  With `TRANSMITTERS` set to `a,b`, a factory
that constructs a backend for both names and a second backend whose `initialize()` returns
`false`, `initialize` returns `false`; the backends constructed are `1` and `2`, nothing is
deleted during the call, the owned collection holds `1` only, and the destructor deletes `1`
only: backend `2` is neither owned nor released. -/
theorem c14_backend_that_fails_to_initialise_is_leaked :
    (initialise { transmitters := some "a,b".toList, simulcast := none } worldSecondFails
        (MultiTx.new 0)).map
      (fun r => (r.1, constructed r.2.2, released r.2.2, r.2.1.txs,
        released r.2.1.destructor.2))
      = some (false, [1, 2], [], [1], [1]) := by
  decide


/-! ## Further facts about the latency handlers -/

theorem storeSet_same (store : LatencyStore) (tx : Tx) (l : Int) :
    storeSet store tx l tx = some l := by
  simp [storeSet]

theorem storeSet_other (store : LatencyStore) (tx k : Tx) (l : Int) (h : k ≠ tx) :
    storeSet store tx l k = store k := by
  simp [storeSet, h]

theorem storeSet_idem (store : LatencyStore) (tx : Tx) (l : Int) :
    storeSet (storeSet store tx l) tx l = storeSet store tx l := by
  funext k
  by_cases h : k = tx <;> simp [storeSet, h]

theorem storeGet_storeSet (store : LatencyStore) (tx : Tx) (l : Int) :
    storeGet (storeSet store tx l) tx = l := by
  simp [storeGet, storeSet]

theorem onLatencyChanged_store (m : MultiTx) (l : Int) (tx : Tx) :
    (m.onLatencyChanged l tx).1.tx_latencystore = storeSet m.tx_latencystore tx l := by
  by_cases h : l > m.system_latency
  · rw [onLatencyChanged_of_gt m l tx h]
  · rw [onLatencyChanged_of_le m l tx h]
    simp only
    split <;> rfl

theorem onLatencyChanged_txs (m : MultiTx) (l : Int) (tx : Tx) :
    (m.onLatencyChanged l tx).1.txs = m.txs := by
  by_cases h : l > m.system_latency
  · rw [onLatencyChanged_of_gt m l tx h]
  · rw [onLatencyChanged_of_le m l tx h]
    simp only
    split <;> rfl

theorem onLatencyChanged_next_latency (m : MultiTx) (l : Int) (tx : Tx) :
    (m.onLatencyChanged l tx).1.next_latency
      = if tx = m.maxlatencyTx ∧ l < m.system_latency ∧ m.txs ≠ [] then max m.next_latency l
        else m.next_latency := by
  by_cases h : l > m.system_latency
  · rw [onLatencyChanged_of_gt m l tx h]
    have : ¬ (tx = m.maxlatencyTx ∧ l < m.system_latency ∧ m.txs ≠ []) := by
      intro hc
      omega
    rw [if_neg this]
  · rw [onLatencyChanged_of_le m l tx h]
    simp only
    by_cases hc : tx = m.maxlatencyTx ∧ l < m.system_latency
    · rw [if_pos hc]
      simp only [stageLoop_eq, storeGet_storeSet]
      by_cases ht : m.txs = []
      · simp [ht]
      · simp [ht, hc.1, hc.2]
    · rw [if_neg hc]
      have : ¬ (tx = m.maxlatencyTx ∧ l < m.system_latency ∧ m.txs ≠ []) :=
        fun hx => hc ⟨hx.1, hx.2.1⟩
      rw [if_neg this]

theorem stepCall_next_latency_le (m : MultiTx) (c : Call) :
    m.next_latency ≤ (stepCall m c).1.next_latency := by
  cases c with
  | setSystemLatency x => exact le_refl _
  | event e =>
      cases e with
      | transmitterStateChange b flags => exact le_refl _
      | latencyChanged l tx =>
          simp only [stepCall, step, onLatencyChanged_next_latency]
          split
          · exact le_max_left _ _
          · exact le_refl _

theorem runCalls_next_latency_le (cs : List Call) :
    ∀ m : MultiTx, m.next_latency ≤ (runCalls m cs).1.next_latency := by
  induction cs with
  | nil => intro m; exact le_refl _
  | cons c rest ih =>
      intro m
      exact le_trans (stepCall_next_latency_le m c) (ih (stepCall m c).1)

/-! ## Frame, idempotence and the staged value -/

/-- C15: after `onLatencyChanged(l, tx)` the entry of `tx` in the latency map is `l` and every
other entry is as before, whichever branch is taken; and when `l` does not exceed
`system_latency` and `tx` is not the max-holder, the controller differs from before in that map
entry only and no call is made on any backend. -/
theorem c15_report_is_recorded_and_frame (m : MultiTx) (l : Int) (tx : Tx) :
    (m.onLatencyChanged l tx).1.tx_latencystore tx = some l ∧
    (∀ k, k ≠ tx → (m.onLatencyChanged l tx).1.tx_latencystore k = m.tx_latencystore k) ∧
    (¬ l > m.system_latency → tx ≠ m.maxlatencyTx →
      m.onLatencyChanged l tx
        = ({ m with tx_latencystore := storeSet m.tx_latencystore tx l }, [])) := by
  refine ⟨?_, ?_, ?_⟩
  · rw [onLatencyChanged_store, storeSet_same]
  · intro k hk
    rw [onLatencyChanged_store, storeSet_other _ _ _ _ hk]
  · intro hle hne
    rw [onLatencyChanged_of_le m l tx hle, if_neg (fun hc => hne hc.1)]

theorem c15_report_is_recorded_and_frame_witness :
    (3 : Tx) ≠ 1 ∧
    ((afterThreeReports 0).onLatencyChanged 7 1).1.tx_latencystore 3
      = (afterThreeReports 0).tx_latencystore 3 ∧
    ¬ (7 : Int) > (afterThreeReports 0).system_latency ∧
    (1 : Tx) ≠ (afterThreeReports 0).maxlatencyTx ∧
    (afterThreeReports 0).onLatencyChanged 7 1
      = ({ afterThreeReports 0 with
            tx_latencystore := storeSet (afterThreeReports 0).tx_latencystore 1 7 }, []) :=
  ⟨by decide,
   (c15_report_is_recorded_and_frame (afterThreeReports 0) 7 1).2.1 3 (by decide),
   by decide, by decide,
   (c15_report_is_recorded_and_frame (afterThreeReports 0) 7 1).2.2 (by decide) (by decide)⟩

/-- C16, the claim as stated fails: a decoder in `STATE_ACTIVE` whose `last_detected_digit` is
the character `'?'` returns `'?'` from `activeDigit` although its state is not `STATE_IDLE`, so
the result `'?'` does not tell that the state is `STATE_IDLE`. -/
theorem c16_question_mark_outside_idle :
    (S54sDtmfDecoder.mk '?' S54sDtmfDecoder.State.STATE_ACTIVE 0).activeDigit = '?' ∧
    (S54sDtmfDecoder.mk '?' S54sDtmfDecoder.State.STATE_ACTIVE 0).state
      ≠ S54sDtmfDecoder.State.STATE_IDLE ∧
    ¬ ((S54sDtmfDecoder.mk '?' S54sDtmfDecoder.State.STATE_ACTIVE 0).activeDigit = '?' ↔
        (S54sDtmfDecoder.mk '?' S54sDtmfDecoder.State.STATE_ACTIVE 0).state
          = S54sDtmfDecoder.State.STATE_IDLE) := by
  refine ⟨by decide, by decide, ?_⟩
  intro h
  exact absurd (h.mp (by decide)) (by decide)

/-- C16 as amended: `activeDigit` returns `'?'` when the state is `STATE_IDLE` and the unchanged
`last_detected_digit` in `STATE_ACTIVE` and in `STATE_HANG`; so the result is `'?'` exactly when
the state is `STATE_IDLE` or the stored digit is the character `'?'` itself.  The method is
`const`: it yields the character and nothing else. -/
theorem c16_activeDigit_by_state (d : S54sDtmfDecoder) :
    (d.state = S54sDtmfDecoder.State.STATE_IDLE → d.activeDigit = '?') ∧
    (d.state = S54sDtmfDecoder.State.STATE_ACTIVE → d.activeDigit = d.last_detected_digit) ∧
    (d.state = S54sDtmfDecoder.State.STATE_HANG → d.activeDigit = d.last_detected_digit) ∧
    (d.activeDigit = '?' ↔
      d.state = S54sDtmfDecoder.State.STATE_IDLE ∨ d.last_detected_digit = '?') := by
  unfold S54sDtmfDecoder.activeDigit
  refine ⟨?_, ?_, ?_, ?_⟩
  · intro h; simp [h]
  · intro h; simp [h]
  · intro h; simp [h]
  · by_cases h : d.state = S54sDtmfDecoder.State.STATE_IDLE
    · simp [h]
    · simp [h]

theorem c16_activeDigit_by_state_witness :
    (S54sDtmfDecoder.mk '5' S54sDtmfDecoder.State.STATE_IDLE 0).activeDigit = '?' ∧
    (S54sDtmfDecoder.mk '5' S54sDtmfDecoder.State.STATE_ACTIVE 0).activeDigit = '5' ∧
    (S54sDtmfDecoder.mk '5' S54sDtmfDecoder.State.STATE_HANG 0).activeDigit = '5' ∧
    ((S54sDtmfDecoder.mk '?' S54sDtmfDecoder.State.STATE_HANG 0).activeDigit = '?' ↔
      S54sDtmfDecoder.State.STATE_HANG = S54sDtmfDecoder.State.STATE_IDLE ∨ '?' = '?') :=
  ⟨(c16_activeDigit_by_state (S54sDtmfDecoder.mk '5' S54sDtmfDecoder.State.STATE_IDLE 0)).1 rfl,
   (c16_activeDigit_by_state
      (S54sDtmfDecoder.mk '5' S54sDtmfDecoder.State.STATE_ACTIVE 0)).2.1 rfl,
   (c16_activeDigit_by_state
      (S54sDtmfDecoder.mk '5' S54sDtmfDecoder.State.STATE_HANG 0)).2.2.1 rfl,
   (c16_activeDigit_by_state
      (S54sDtmfDecoder.mk '?' S54sDtmfDecoder.State.STATE_HANG 0)).2.2.2⟩

/-- C17: `onLatencyChanged` is idempotent.  Delivering the same report `(l, tx)` a second time
leaves the whole controller, so `system_latency`, `next_latency`, the max-holder and the latency
map, as the first delivery left it, and the second delivery makes no call on any backend. -/
theorem c17_onLatencyChanged_idempotent (m : MultiTx) (l : Int) (tx : Tx) :
    (m.onLatencyChanged l tx).1.onLatencyChanged l tx = ((m.onLatencyChanged l tx).1, []) := by
  by_cases h : l > m.system_latency
  · rw [onLatencyChanged_of_gt m l tx h]
    rw [onLatencyChanged_of_le _ l tx (by simp)]
    simp [storeSet_idem]
  · rw [onLatencyChanged_of_le m l tx h]
    by_cases hc : tx = m.maxlatencyTx ∧ l < m.system_latency
    · simp only [if_pos hc]
      rw [onLatencyChanged_of_le _ l tx (by exact h)]
      simp only [if_pos hc, storeSet_idem, stageLoop_eq, storeGet_storeSet]
      by_cases ht : m.txs = []
      · simp [ht]
      · simp [ht]
    · simp only [if_neg hc]
      rw [onLatencyChanged_of_le _ l tx (by exact h)]
      simp only [if_neg hc, storeSet_idem]

/-- C19, where the code departs from the claim.  One owned backend reports `30`:
`system_latency` becomes `30` and `30` is recorded for it, while `next_latency` stays `0`.  The
next transmit-state change commits `next_latency`, so `system_latency` is `0`, below the `30`
still recorded for the backend. -/
theorem c19_commit_goes_below_recorded_latency (garbage : Tx) :
    (run (oneBackend garbage) [Event.latencyChanged 30 1]).1.system_latency = 30 ∧
    (run (oneBackend garbage) [Event.latencyChanged 30 1]).1.next_latency = 0 ∧
    (run (oneBackend garbage)
      [Event.latencyChanged 30 1, Event.transmitterStateChange true flagsA]).1.system_latency
      = 0 ∧
    (run (oneBackend garbage)
      [Event.latencyChanged 30 1, Event.transmitterStateChange true flagsA]).1.tx_latencystore 1
      = some 30 := by
  refine ⟨rfl, rfl, rfl, rfl⟩

/-- C20: `next_latency` is a running maximum.  Along every sequence of latency reports,
transmit-state changes and `setSystemLatency` calls it never decreases; one step changes it only
when that step is a report of the current max-holder with a latency `l` below `system_latency`
while at least one backend is owned, and such a report sets it to `max(next_latency, l)`; so no
later transmit-state change commits a `system_latency` below a value staged before. -/
theorem c20_next_latency_is_running_maximum (m : MultiTx) (cs : List Call) (c : Call)
    (l : Int) (tx : Tx) (flags : Tx → Bool) (b : Bool) :
    m.next_latency ≤ (runCalls m cs).1.next_latency ∧
    ((stepCall m c).1.next_latency ≠ m.next_latency →
      ∃ l1 tx1, c = Call.event (Event.latencyChanged l1 tx1) ∧
        tx1 = m.maxlatencyTx ∧ l1 < m.system_latency ∧ m.txs ≠ []) ∧
    (tx = m.maxlatencyTx → l < m.system_latency → m.txs ≠ [] →
      (m.onLatencyChanged l tx).1.next_latency = max m.next_latency l) ∧
    m.next_latency
      ≤ ((runCalls m cs).1.onTransmitterStateChange flags b).1.system_latency := by
  refine ⟨runCalls_next_latency_le cs m, ?_, ?_, runCalls_next_latency_le cs m⟩
  · intro hne
    cases c with
    | setSystemLatency x => exact absurd rfl hne
    | event e =>
        cases e with
        | transmitterStateChange b1 flags1 => exact absurd rfl hne
        | latencyChanged l1 tx1 =>
            refine ⟨l1, tx1, rfl, ?_⟩
            simp only [stepCall, step, onLatencyChanged_next_latency] at hne
            by_contra hcon
            rw [if_neg hcon] at hne
            exact hne rfl
  · intro h1 h2 h3
    rw [onLatencyChanged_next_latency, if_pos ⟨h1, h2, h3⟩]

theorem c20_next_latency_is_running_maximum_witness :
    (stepCall (afterThreeReports 0) (Call.event (Event.latencyChanged 5 2))).1.next_latency
      ≠ (afterThreeReports 0).next_latency ∧
    (∃ l1 tx1, Call.event (Event.latencyChanged 5 2) = Call.event (Event.latencyChanged l1 tx1) ∧
        tx1 = (afterThreeReports 0).maxlatencyTx ∧ l1 < (afterThreeReports 0).system_latency ∧
        (afterThreeReports 0).txs ≠ []) ∧
    (2 : Tx) = (afterThreeReports 0).maxlatencyTx ∧
    (5 : Int) < (afterThreeReports 0).system_latency ∧
    (afterThreeReports 0).txs ≠ [] ∧
    ((afterThreeReports 0).onLatencyChanged 5 2).1.next_latency
      = max (afterThreeReports 0).next_latency 5 :=
  ⟨by decide,
   (c20_next_latency_is_running_maximum (afterThreeReports 0) []
      (Call.event (Event.latencyChanged 5 2)) 5 2 flagsA true).2.1 (by decide),
   by decide, by decide, by decide,
   (c20_next_latency_is_running_maximum (afterThreeReports 0) []
      (Call.event (Event.latencyChanged 5 2)) 5 2 flagsA true).2.2.1 (by decide) (by decide)
      (by decide)⟩


/-! ## What the backends have received -/

theorem receivedBy_append (a : Tx) (xs ys : List Effect) :
    receivedBy a (xs ++ ys) = receivedBy a xs ++ receivedBy a ys := by
  induction xs with
  | nil => rfl
  | cons e rest ih =>
      cases e <;> simp [receivedBy, ih]
      split <;> simp

theorem receivedBy_of_latencyPushes_nil (a : Tx) (xs : List Effect)
    (h : latencyPushes xs = []) : receivedBy a xs = [] := by
  induction xs with
  | nil => rfl
  | cons e rest ih =>
      cases e <;> simp [latencyPushes] at h <;> simp [receivedBy, ih h]

theorem receivedBy_map_not_mem (a : Tx) (v : Int) (txs : List Tx) (h : a ∉ txs) :
    receivedBy a (txs.map (fun it => Effect.txSetSystemLatency it v)) = [] := by
  induction txs with
  | nil => rfl
  | cons it rest ih =>
      simp only [List.mem_cons, not_or] at h
      have hne : ¬ it = a := fun hx => h.1 hx.symm
      simp [receivedBy, hne, ih h.2]

theorem receivedBy_map_nodup (a : Tx) (v : Int) (txs : List Tx) (hnd : txs.Nodup)
    (ha : a ∈ txs) :
    receivedBy a (txs.map (fun it => Effect.txSetSystemLatency it v)) = [v] := by
  induction txs with
  | nil => simp at ha
  | cons it rest ih =>
      rw [List.nodup_cons] at hnd
      simp only [List.map_cons, receivedBy]
      by_cases hit : it = a
      · subst hit
        rw [if_pos rfl, receivedBy_map_not_mem _ v rest hnd.1]
      · rw [if_neg hit]
        rcases List.mem_cons.mp ha with h1 | h2
        · exact absurd h1.symm hit
        · exact ih hnd.2 h2

theorem receivedBy_setSystemLatency (m : MultiTx) (a : Tx) (v : Int) (hnd : m.txs.Nodup)
    (ha : a ∈ m.txs) : receivedBy a (m.setSystemLatency v) = [v] := by
  rw [MultiTx.setSystemLatency, forEachTx_eq_map]
  exact receivedBy_map_nodup a v m.txs hnd ha

/-- Every owned backend has received the values `vals`, the last of which, if there is one, is
`system_latency`. -/
theorem step_keeps_pushed (m : MultiTx) (e : Event) (acc : List Effect) (vals : List Int)
    (hnd : m.txs.Nodup)
    (hall : ∀ a ∈ m.txs, receivedBy a acc = vals)
    (hlast : vals ≠ [] → vals.getLast? = some m.system_latency) :
    (step m e).1.txs = m.txs ∧
    ∃ vals1, (∀ a ∈ m.txs, receivedBy a (acc ++ (step m e).2) = vals1) ∧
      (vals1 ≠ [] → vals1.getLast? = some (step m e).1.system_latency) := by
  cases e with
  | latencyChanged l t =>
      simp only [step]
      refine ⟨onLatencyChanged_txs m l t, ?_⟩
      by_cases h : l > m.system_latency
      · rw [onLatencyChanged_of_gt m l t h]
        refine ⟨vals ++ [l], ?_, ?_⟩
        · intro a ha
          rw [receivedBy_append, hall a ha, receivedBy_setSystemLatency m a l hnd ha]
        · intro _
          simp
      · rw [onLatencyChanged_of_le m l t h]
        refine ⟨vals, ?_, ?_⟩
        · intro a ha
          simp only [List.append_nil]
          exact hall a ha
        · intro hv
          rw [hlast hv]
          split <;> rfl
  | transmitterStateChange b flags =>
      refine ⟨rfl, vals ++ [m.next_latency], ?_, ?_⟩
      · intro a ha
        simp only [step, MultiTx.onTransmitterStateChange]
        rw [receivedBy_append, receivedBy_append, hall a ha,
          receivedBy_setSystemLatency m a _ hnd ha]
        split <;> simp [receivedBy]
      · intro _
        simp [step, MultiTx.onTransmitterStateChange]

theorem run_keeps_pushed (es : List Event) :
    ∀ (m : MultiTx) (acc : List Effect) (vals : List Int), m.txs.Nodup →
      (∀ a ∈ m.txs, receivedBy a acc = vals) →
      (vals ≠ [] → vals.getLast? = some m.system_latency) →
      (run m es).1.txs = m.txs ∧
      ∃ vals1, (∀ a ∈ m.txs, receivedBy a (acc ++ (run m es).2) = vals1) ∧
        (vals1 ≠ [] → vals1.getLast? = some (run m es).1.system_latency) := by
  induction es with
  | nil =>
      intro m acc vals _ hall hlast
      exact ⟨rfl, vals, by simpa [run] using hall, hlast⟩
  | cons e rest ih =>
      intro m acc vals hnd hall hlast
      obtain ⟨htx, vals1, hall1, hlast1⟩ := step_keeps_pushed m e acc vals hnd hall hlast
      have hnd1 : (step m e).1.txs.Nodup := by rw [htx]; exact hnd
      obtain ⟨htx2, vals2, hall2, hlast2⟩ :=
        ih (step m e).1 (acc ++ (step m e).2) vals1 hnd1 (by rw [htx]; exact hall1) hlast1
      refine ⟨by simp only [run]; rw [htx2, htx], vals2, ?_, ?_⟩
      · intro a ha
        have := hall2 a (by rw [htx]; exact ha)
        simpa [run, List.append_assoc] using this
      · simpa [run] using hlast2

theorem initialise_keeps_pushed (w : TxWorld) (cfg : Config) (m m1 : MultiTx)
    (eff0 : List Effect) (hinit : initialise cfg w m = some (true, m1, eff0))
    (hnd : m1.txs.Nodup) :
    ∃ vals, (∀ a ∈ m1.txs, receivedBy a eff0 = vals) ∧
      (vals ≠ [] → vals.getLast? = some m1.system_latency) := by
  obtain ⟨tr, si⟩ := cfg
  cases tr with
  | none => simp [initialise] at hinit
  | some s =>
      cases hall : allUsable w m.txs.length (commaTokens s)
      · rw [initialise_of_not_allUsable w m _ s hall] at hinit
        simp at hinit
      · rw [initialise_of_allUsable w m _ s hall] at hinit
        have hloop : ∀ a, receivedBy a (loopOverNames w (commaTokens s) m).2.2 = [] :=
          fun a => receivedBy_of_latencyPushes_nil a _ (loopOverNames_latencyPushes w _ m)
        cases si with
        | none =>
            simp only [Option.some.injEq, Prod.mk.injEq, true_and] at hinit
            obtain ⟨h1, h2⟩ := hinit
            subst h2
            exact ⟨[], fun a _ => hloop a, fun h => absurd rfl h⟩
        | some v =>
            simp only [Option.some.injEq, Prod.mk.injEq, true_and] at hinit
            obtain ⟨h1, h2⟩ := hinit
            subst h1
            subst h2
            refine ⟨[10], ?_, fun _ => rfl⟩
            intro a ha
            rw [receivedBy_append, hloop a, List.nil_append]
            exact receivedBy_setSystemLatency _ a 10 hnd ha

/-- C18: `system_latency` is the value last pushed to the backends.  Start from the constructed
aggregate, let `initialize` succeed with owned backends that are distinct objects, and deliver
any sequence of latency reports and transmit-state changes.  Then all owned backends have
received the same sequence of `setSystemLatency` values, and a backend that has received any
value has received `system_latency` last. -/
theorem c18_system_latency_is_last_pushed (w : TxWorld) (cfg : Config) (garbage : Tx)
    (m1 : MultiTx) (eff0 : List Effect) (es : List Event)
    (hinit : initialise cfg w (MultiTx.new garbage) = some (true, m1, eff0))
    (hnd : m1.txs.Nodup) :
    (∀ a ∈ (run m1 es).1.txs, ∀ b ∈ (run m1 es).1.txs,
      receivedBy a (eff0 ++ (run m1 es).2) = receivedBy b (eff0 ++ (run m1 es).2)) ∧
    (∀ a ∈ (run m1 es).1.txs, receivedBy a (eff0 ++ (run m1 es).2) ≠ [] →
      (receivedBy a (eff0 ++ (run m1 es).2)).getLast? = some (run m1 es).1.system_latency) := by
  obtain ⟨vals, hall, hlast⟩ := initialise_keeps_pushed w cfg _ m1 eff0 hinit hnd
  obtain ⟨htx, vals1, hall1, hlast1⟩ := run_keeps_pushed es m1 eff0 vals hnd hall hlast
  rw [htx]
  refine ⟨?_, ?_⟩
  · intro a ha b hb
    rw [hall1 a ha, hall1 b hb]
  · intro a ha hne
    rw [hall1 a ha] at hne ⊢
    exact hlast1 hne

theorem c18_system_latency_is_last_pushed_witness :
    initialise cfgSimulcastAB worldABC (MultiTx.new 0)
      = some (true, simulcastAB, simulcastABEffects) ∧
    simulcastAB.txs.Nodup ∧
    receivedBy 1 (simulcastABEffects ++ (run simulcastAB raiseLowerCommit).2)
      = receivedBy 2 (simulcastABEffects ++ (run simulcastAB raiseLowerCommit).2) ∧
    receivedBy 1 (simulcastABEffects ++ (run simulcastAB raiseLowerCommit).2) ≠ [] ∧
    (receivedBy 1 (simulcastABEffects ++ (run simulcastAB raiseLowerCommit).2)).getLast?
      = some (run simulcastAB raiseLowerCommit).1.system_latency :=
  ⟨rfl, by decide,
   (c18_system_latency_is_last_pushed worldABC cfgSimulcastAB 0 simulcastAB simulcastABEffects
      raiseLowerCommit rfl (by decide)).1 1 (by decide) 2 (by decide),
   by decide,
   (c18_system_latency_is_last_pushed worldABC cfgSimulcastAB 0 simulcastAB simulcastABEffects
      raiseLowerCommit rfl (by decide)).2 1 (by decide) (by decide)⟩


/-! ## Announcing a stop, and the public `setSystemLatency` -/

theorem receivedBy_map_replicate (a : Tx) (v : Int) (txs : List Tx) :
    receivedBy a (txs.map (fun it => Effect.txSetSystemLatency it v))
      = List.replicate (txs.count a) v := by
  induction txs with
  | nil => rfl
  | cons it rest ih =>
      by_cases hit : it = a
      · subst hit
        simp [receivedBy, ih, List.replicate_succ]
      · have hne : ¬ (it == a) = true := by simpa using hit
        simp [receivedBy, ih, hit, List.count_cons, hne]

/-- C21: the aggregate never announces a stop while a backend is still transmitting.
`onTransmitterStateChange(false)` emits the aggregate event only if no owned backend is
transmitting, so a stop reported while some owned backend still transmits emits nothing; and for
both polarities, every aggregate event emitted carries the value that `isTransmitting()` has at
that moment. -/
theorem c21_stop_announced_only_when_all_stopped (m : MultiTx) (flags : Tx → Bool) (b : Bool) :
    (emitted (m.onTransmitterStateChange flags false).2 ≠ [] →
      ∀ it ∈ m.txs, flags it = false) ∧
    ((∃ it ∈ m.txs, flags it = true) →
      emitted (m.onTransmitterStateChange flags false).2 = []) ∧
    (∀ p ∈ emitted (m.onTransmitterStateChange flags b).2, p = m.isTransmitting flags) := by
  refine ⟨?_, ?_, ?_⟩
  · intro hne it hit
    rw [emitted_onTransmitterStateChange] at hne
    by_cases hany : false = m.txs.any flags
    · have hf : m.txs.any flags = false := hany.symm
      rw [List.any_eq_false] at hf
      simpa using hf it hit
    · rw [if_neg hany] at hne
      exact absurd rfl hne
  · intro hex
    have hany : m.txs.any flags = true := List.any_eq_true.mpr hex
    rw [emitted_onTransmitterStateChange, hany]
    rfl
  · intro p hp
    rw [emitted_onTransmitterStateChange] at hp
    rw [isTransmitting_eq_any]
    by_cases hb : b = m.txs.any flags
    · rw [if_pos hb] at hp
      rw [List.mem_singleton] at hp
      rw [hp, hb]
    · rw [if_neg hb] at hp
      simp at hp

theorem c21_stop_announced_only_when_all_stopped_witness :
    (∃ it ∈ (twoBackends 0).txs, flagsA it = true) ∧
    emitted ((twoBackends 0).onTransmitterStateChange flagsA false).2 = [] ∧
    emitted ((twoBackends 0).onTransmitterStateChange (fun _ => false) false).2 ≠ [] ∧
    (∀ it ∈ (twoBackends 0).txs, (fun _ => false : Tx → Bool) it = false) ∧
    (true ∈ emitted ((twoBackends 0).onTransmitterStateChange flagsA true).2) ∧
    true = (twoBackends 0).isTransmitting flagsA :=
  ⟨⟨1, by decide, by decide⟩,
   (c21_stop_announced_only_when_all_stopped (twoBackends 0) flagsA false).2.1
     ⟨1, by decide, by decide⟩,
   by decide,
   (c21_stop_announced_only_when_all_stopped (twoBackends 0) (fun _ => false) false).1
     (by decide),
   by decide,
   (c21_stop_announced_only_when_all_stopped (twoBackends 0) flagsA true).2.2 true
     (by decide)⟩

/-- C22: the public `setSystemLatency(x)` only forwards.  It calls `setSystemLatency(x)` on
every owned backend exactly once, in insertion order, and leaves the controller as it was, so
`system_latency`, `next_latency`, the max-holder and the latency map are unchanged; after a call
with `x` different from `system_latency`, every owned backend has received `x` last while the
controller still records the old `system_latency`. -/
theorem c22_setSystemLatency_only_forwards (m : MultiTx) (x : Int) :
    m.setSystemLatency x = m.txs.map (fun it => Effect.txSetSystemLatency it x) ∧
    stepCall m (Call.setSystemLatency x) = (m, m.setSystemLatency x) ∧
    (∀ a ∈ m.txs, (receivedBy a (m.setSystemLatency x)).getLast? = some x) ∧
    (x ≠ m.system_latency →
      (stepCall m (Call.setSystemLatency x)).1.system_latency = m.system_latency ∧
      (stepCall m (Call.setSystemLatency x)).1.system_latency ≠ x) := by
  refine ⟨?_, rfl, ?_, ?_⟩
  · rw [MultiTx.setSystemLatency, forEachTx_eq_map]
  · intro a ha
    rw [MultiTx.setSystemLatency, forEachTx_eq_map, receivedBy_map_replicate,
      List.getLast?_replicate]
    have hpos : 0 < m.txs.count a := List.count_pos_iff.mpr ha
    rw [if_neg (by omega)]
  · intro hx
    exact ⟨rfl, fun h => hx h.symm⟩

theorem c22_setSystemLatency_only_forwards_witness :
    (2 : Tx) ∈ (afterThreeReports 0).txs ∧
    (receivedBy 2 ((afterThreeReports 0).setSystemLatency 7)).getLast? = some 7 ∧
    (7 : Int) ≠ (afterThreeReports 0).system_latency ∧
    (stepCall (afterThreeReports 0) (Call.setSystemLatency 7)).1.system_latency
      = (afterThreeReports 0).system_latency ∧
    (stepCall (afterThreeReports 0) (Call.setSystemLatency 7)).1.system_latency ≠ 7 :=
  ⟨by decide,
   (c22_setSystemLatency_only_forwards (afterThreeReports 0) 7).2.2.1 2 (by decide),
   by decide,
   (c22_setSystemLatency_only_forwards (afterThreeReports 0) 7).2.2.2 (by decide)⟩

end SvxLink
